import Mathlib

/-
  Verification development for zsnprintf (zsnprintf.c / zsnprintf.h).

  The C source is shallowly embedded: machine integers become Nat / Int with
  explicit wrap-around (mod 2^w) at every conversion the C performs, buffers
  become lists of characters built in emission order, and the variadic
  argument list becomes an explicit list of typed values.  Floating point
  values are embedded as a tagged type (NaN, plus/minus infinity, or a finite
  exact rational); the arithmetic the float renderer performs on finite
  values is modelled exactly over the rationals, and log10l is modelled by
  the exact truncated base-10 logarithm (the code itself contains the
  corrections it needs when the libm log is off by one at a boundary).

  Platform binding (the source selects renderers by UINT_MAX / ULONG_MAX at
  build time): we model the common LP64 configuration
  UINT_MAX == UINT32_MAX, ULONG_MAX == UINT64_MAX, so
  zitoa = zi32toa, zutoa = zu32toa, zxtoa = zx64toa(ZS32), zltoa = zi64toa,
  zultoa = zu64toa, zlltoa = zi64toa, and zftoa = zftoal.
-/

namespace Zfmt

/-- sign_t from the source: auto_sign, always_sign, sign_or_space. -/
inductive SignT
  | auto_sign
  | always_sign
  | sign_or_space
deriving DecidableEq

/-- exp_form_t from the source: exp_none, exp_e, exp_E. -/
inductive ExpFormT
  | exp_none
  | exp_e
  | exp_E
deriving DecidableEq

/-- fmt_flags_t from the source (bitfield struct flags_s). -/
structure FmtFlags where
  leftAlign : Bool
  sign : SignT
  altForm : Bool
  zeropad : Bool
  exp : ExpFormT
deriving DecidableEq

/-- the all-zero flag value, fmt_flags_t flags = { 0 }. -/
def flags0 : FmtFlags := ⟨false, SignT.auto_sign, false, false, ExpFormT.exp_none⟩

def setLeftAlign (f : FmtFlags) : FmtFlags := ⟨true, f.sign, f.altForm, f.zeropad, f.exp⟩

def setSign (f : FmtFlags) (s : SignT) : FmtFlags := ⟨f.leftAlign, s, f.altForm, f.zeropad, f.exp⟩

def setAltForm (f : FmtFlags) : FmtFlags := ⟨f.leftAlign, f.sign, true, f.zeropad, f.exp⟩

def setZeropad (f : FmtFlags) : FmtFlags := ⟨f.leftAlign, f.sign, f.altForm, true, f.exp⟩

def setExp (f : FmtFlags) (e : ExpFormT) : FmtFlags := ⟨f.leftAlign, f.sign, f.altForm, f.zeropad, e⟩

/-- int_size_t from the source.  The declaration order gives the enum values
ZS64 = 0, ZS32 = 1, ZS16 = 2, which is what the comparisons in zx64toa and
zo64toa actually operate on. -/
inductive IntSize
  | ZS64
  | ZS32
  | ZS16
deriving DecidableEq

/-- the numeric value of the int_size_t enumerand as C sees it. -/
def IntSize.val : IntSize → Nat
  | IntSize.ZS64 => 0
  | IntSize.ZS32 => 1
  | IntSize.ZS16 => 2

/-- DTOCHAR: digit to character. -/
def DTOCHAR (d : Nat) : Char := Char.ofNat (d + 48)

/-- xTOCHAR: hex digit to lowercase character. -/
def xTOCHAR (x : Nat) : Char := if x ≥ 10 then Char.ofNat (x - 10 + 97) else DTOCHAR x

/-- XTOCHAR: hex digit to uppercase character. -/
def XTOCHAR (x : Nat) : Char := if x ≥ 10 then Char.ofNat (x - 10 + 65) else DTOCHAR x

/-- C int conversion: wrap an integer value into the int32 window, the effect
of converting a wider C integer to a 32-bit signed int. -/
def toInt32 (i : Int) : Int := (i + 2147483648).emod 4294967296 - 2147483648

/-- C unsigned conversion (mod 2^32). -/
def toUInt32n (i : Int) : Nat := (i.emod 4294967296).toNat

/-- C long conversion: wrap into the int64 window. -/
def toInt64 (i : Int) : Int := (i + 9223372036854775808).emod 18446744073709551616 - 9223372036854775808

/-- C unsigned long conversion (mod 2^64). -/
def toUInt64n (i : Int) : Nat := (i.emod 18446744073709551616).toNat

/-- running first_digit tracking: the source interleaves assignments
'if (dj) { first_digit = j; }' for j = i0, i0 + 1, ...; this walk applies
those assignments in order along the digit list. -/
def fdScanD : List Nat → Nat → Nat → Nat
  | [], _, fd => fd
  | d :: t, i, fd => fdScanD t (i + 1) (if d ≠ 0 then i else fd)

/-- one quotient/remainder stage of the weighted-sum reduction; the source
guards each stage with 'if (a) { q = a / 10; d = a % 10; } else q = d = 0;'
which is extensionally plain division and remainder. -/
def ifDiv10 (a : Nat) : Nat × Nat := if a ≠ 0 then (a / 10, a % 10) else (0, 0)

/-- addSign macro: '-' for negative, else '+' under always_sign, else ' '
under sign_or_space, else nothing. -/
def addSign (neg : Bool) (f : FmtFlags) : List Char :=
  if neg then ['-']
  else if f.sign = SignT.always_sign then ['+']
  else if f.sign = SignT.sign_or_space then [' ']
  else []

/-- width clamp common to every integer renderer:
'if (width > cap) width = cap; else --width;' (width is known nonzero). -/
def clampWidth (cap : Nat) (width : Nat) : Nat := if width > cap then cap else width - 1

/-- the fall-through switch at the end of every integer renderer: emits
digits d_fd, ..., d_1 and then always d_0, where dsLE lists the digits
least-significant first. -/
def emitDigits (tochar : Nat → Char) (dsLE : List Nat) (fd : Nat) : List Char :=
  (((dsLE.drop 1).take fd).reverse ++ [dsLE.headD 0]).map tochar

/-- the 16-bit weighted multiply-add digit reduction block, shared verbatim by
zi16toa (applied to absn) and zu16toa in the source.  Nibble extraction
(n >> 4k) & 0xF is written n / 16^k % 16.  Returns the little-endian decimal
digits [d0, d1, d2, d3, d4] and first_digit. -/
def z16digits (m : Nat) : List Nat × Nat :=
  let n0 := m % 16
  let n1 := m / 16 % 16
  let n2 := m / 256 % 16
  let n3 := m / 4096 % 16
  let p0 := ifDiv10 (6 * (n3 + n2 + n1) + n0)
  let p1 := ifDiv10 (p0.1 + 9 * n3 + 5 * n2 + n1)
  let p2 := ifDiv10 (p1.1 + 2 * n2)
  let p3 := ifDiv10 (p2.1 + 4 * n3)
  let d4 := p3.1
  let fd := fdScanD [p1.2, p2.2, p3.2, d4] 1 0
  ([p0.2, p1.2, p2.2, p3.2, d4], fd)

/-- the 32-bit weighted multiply-add digit reduction block, shared verbatim by
zi32toa (applied to absn) and zu32toa in the source.  Returns the
little-endian decimal digits [d0, ..., d9] and first_digit. -/
def z32digits (m : Nat) : List Nat × Nat :=
  let n0 := m % 16
  let n1 := m / 16 % 16
  let n2 := m / 256 % 16
  let n3 := m / 4096 % 16
  let n4 := m / 65536 % 16
  let n5 := m / 1048576 % 16
  let n6 := m / 16777216 % 16
  let n7 := m / 268435456 % 16
  let p0 := ifDiv10 (6 * (n7 + n6 + n5 + n4 + n3 + n2 + n1) + n0)
  let p1 := ifDiv10 (p0.1 + 5 * n7 + n6 + 7 * n5 + 3 * n4 + 9 * n3 + 5 * n2 + n1)
  let p2 := ifDiv10 (p1.1 + 4 * n7 + 2 * n6 + 5 * n5 + 5 * n4 + 2 * n2)
  let p3 := ifDiv10 (p2.1 + 5 * n7 + 7 * n6 + 8 * n5 + 5 * n4 + 4 * n3)
  let p4 := ifDiv10 (p3.1 + 3 * n7 + 7 * n6 + 4 * n5 + 6 * n4)
  let p5 := ifDiv10 (p4.1 + 4 * n7 + 7 * n6)
  let p6 := ifDiv10 (p5.1 + 8 * n7 + 6 * n6 + n5)
  let p7 := ifDiv10 (p6.1 + 6 * n7 + n6)
  let p8 := ifDiv10 (p7.1 + 2 * n7)
  let d9 := p8.1
  let fd := fdScanD [p1.2, p2.2, p3.2, p4.2, p5.2, p6.2, p7.2, p8.2, d9] 1 0
  ([p0.2, p1.2, p2.2, p3.2, p4.2, p5.2, p6.2, p7.2, p8.2, d9], fd)

/-- zu16toa: unsigned 16-bit decimal renderer (n is a uint16_t value). -/
def zu16toa (n : Nat) (width : Nat) (flags : FmtFlags) : List Char :=
  let r := z16digits n
  let body := emitDigits DTOCHAR r.1 r.2
  if width ≠ 0 then
    let w0 := clampWidth 4 width
    (if flags.zeropad then List.replicate (w0 - r.2) '0'
     else List.replicate (w0 - r.2) ' ') ++ body
  else body

/-- zi16toa: signed 16-bit decimal renderer.  uint16_t absn = n < 0 ? -n : n
is value-exact for the int16 range (the negation happens after promotion to
int), so absn = n.natAbs. -/
def zi16toa (n : Int) (width : Nat) (flags : FmtFlags) : List Char :=
  let r := z16digits n.natAbs
  let body := emitDigits DTOCHAR r.1 r.2
  let sgn := addSign (decide (n < 0)) flags
  if width ≠ 0 then
    let w0 := clampWidth 4 width
    if flags.zeropad then sgn ++ List.replicate (w0 - r.2) '0' ++ body
    else List.replicate (w0 - r.2) ' ' ++ sgn ++ body
  else sgn ++ body

/-- zu32toa: unsigned 32-bit decimal renderer. -/
def zu32toa (n : Nat) (width : Nat) (flags : FmtFlags) : List Char :=
  let r := z32digits n
  let body := emitDigits DTOCHAR r.1 r.2
  if width ≠ 0 then
    let w0 := clampWidth 9 width
    (if flags.zeropad then List.replicate (w0 - r.2) '0'
     else List.replicate (w0 - r.2) ' ') ++ body
  else body

/-- zi32toa: signed 32-bit decimal renderer.  uint32_t absn = n < 0 ? -n : n
(with two's-complement wrap at INT32_MIN) equals n.natAbs for the int32
window. -/
def zi32toa (n : Int) (width : Nat) (flags : FmtFlags) : List Char :=
  let r := z32digits n.natAbs
  let body := emitDigits DTOCHAR r.1 r.2
  let sgn := addSign (decide (n < 0)) flags
  if width ≠ 0 then
    let w0 := clampWidth 9 width
    if flags.zeropad then sgn ++ List.replicate (w0 - r.2) '0' ++ body
    else List.replicate (w0 - r.2) ' ' ++ sgn ++ body
  else sgn ++ body

/-- the digit-extraction block of zx64toa.  The source guards digit
extraction with 'if (size >= ZS32)' and 'if (size >= ZS64)'; these compare
the numeric enumerand values (ZS64 = 0, ZS32 = 1, ZS16 = 2), so the first
guard holds for ZS32 and ZS16 and the second holds always — mirrored
literally here.  Returns the little-endian hex digits and first_digit. -/
def zx64digits (size : IntSize) (n : Nat) : List Nat × Nat :=
  let d0 := n % 16
  let d1 := n / 16 % 16
  let d2 := n / 256 % 16
  let d3 := n / 4096 % 16
  let d4 := if 1 ≤ size.val then n / 65536 % 16 else 0
  let d5 := if 1 ≤ size.val then n / 1048576 % 16 else 0
  let d6 := if 1 ≤ size.val then n / 16777216 % 16 else 0
  let d7 := if 1 ≤ size.val then n / 268435456 % 16 else 0
  let d8 := if 0 ≤ size.val then n / 4294967296 % 16 else 0
  let d9 := if 0 ≤ size.val then n / 68719476736 % 16 else 0
  let d10 := if 0 ≤ size.val then n / 1099511627776 % 16 else 0
  let d11 := if 0 ≤ size.val then n / 17592186044416 % 16 else 0
  let d12 := if 0 ≤ size.val then n / 281474976710656 % 16 else 0
  let d13 := if 0 ≤ size.val then n / 4503599627370496 % 16 else 0
  let d14 := if 0 ≤ size.val then n / 72057594037927936 % 16 else 0
  let d15 := if 0 ≤ size.val then n / 1152921504606846976 % 16 else 0
  let fd := fdScanD [d1, d2, d3, d4, d5, d6, d7, d8, d9, d10, d11, d12, d13,
                     d14, d15] 1 0
  ([d0, d1, d2, d3, d4, d5, d6, d7, d8, d9, d10, d11, d12, d13, d14, d15], fd)

/-- zx64toa: hexadecimal renderer. -/
def zx64toa (size : IntSize) (n : Nat) (width : Nat) (flags : FmtFlags) (upper : Bool) : List Char :=
  let tochar := if upper then XTOCHAR else xTOCHAR
  let r := zx64digits size n
  let body := emitDigits tochar r.1 r.2
  if width ≠ 0 then
    let w0 := clampWidth 15 width
    (if flags.zeropad then List.replicate (w0 - r.2) '0'
     else List.replicate (w0 - r.2) ' ') ++ body
  else body

/-- the digit-extraction block of zo64toa.  Digit guards compare enumerand
values exactly as in zx64toa: 'size >= ZS32' holds for ZS32/ZS16 and
'size >= ZS64' always. -/
def zo64digits (size : IntSize) (n : Nat) : List Nat × Nat :=
  let d0 := n % 8
  let d1 := n / 8 % 8
  let d2 := n / 64 % 8
  let d3 := n / 512 % 8
  let d4 := n / 4096 % 8
  let d5 := n / 32768 % 8
  let d6 := if 1 ≤ size.val then n / 262144 % 8 else 0
  let d7 := if 1 ≤ size.val then n / 2097152 % 8 else 0
  let d8 := if 1 ≤ size.val then n / 16777216 % 8 else 0
  let d9 := if 1 ≤ size.val then n / 134217728 % 8 else 0
  let d10 := if 1 ≤ size.val then n / 1073741824 % 8 else 0
  let d11 := if 0 ≤ size.val then n / 8589934592 % 8 else 0
  let d12 := if 0 ≤ size.val then n / 68719476736 % 8 else 0
  let d13 := if 0 ≤ size.val then n / 549755813888 % 8 else 0
  let d14 := if 0 ≤ size.val then n / 4398046511104 % 8 else 0
  let d15 := if 0 ≤ size.val then n / 35184372088832 % 8 else 0
  let d16 := if 0 ≤ size.val then n / 281474976710656 % 8 else 0
  let d17 := if 0 ≤ size.val then n / 2251799813685248 % 8 else 0
  let d18 := if 0 ≤ size.val then n / 18014398509481984 % 8 else 0
  let d19 := if 0 ≤ size.val then n / 144115188075855872 % 8 else 0
  let d20 := if 0 ≤ size.val then n / 1152921504606846976 % 8 else 0
  let d21 := if 0 ≤ size.val then n / 9223372036854775808 % 8 else 0
  let fd := fdScanD [d1, d2, d3, d4, d5, d6, d7, d8, d9, d10, d11, d12, d13,
                     d14, d15, d16, d17, d18, d19, d20, d21] 1 0
  ([d0, d1, d2, d3, d4, d5, d6, d7, d8, d9, d10, d11, d12, d13, d14, d15,
    d16, d17, d18, d19, d20, d21], fd)

/-- zo64toa: octal renderer. -/
def zo64toa (size : IntSize) (n : Nat) (width : Nat) (flags : FmtFlags) : List Char :=
  let r := zo64digits size n
  let body := emitDigits XTOCHAR r.1 r.2
  if width ≠ 0 then
    let w0 := clampWidth 21 width
    (if flags.zeropad then List.replicate (w0 - r.2) '0'
     else List.replicate (w0 - r.2) ' ') ++ body
  else body

/-- the digit loop of zi64toa / zu64toa: produces the decimal digits of m in
least-significant-first order, exactly as the while loop fills tmp; the n == 0
branch writes a single '0'. -/
def decRev (m : Nat) : List Nat :=
  if h : m = 0 then [] else m % 10 :: decRev (m / 10)
decreasing_by exact Nat.div_lt_self (Nat.pos_of_ne_zero h) (by omega)

/-- zi64toa: signed 64-bit decimal renderer.  Values inside the int32 window
are redirected to zi32toa; otherwise digits are produced by repeated division
into tmp and reversed in place (reverse(tmp, first_digit)).
uint64_t _n = -n wraps to n.natAbs for the int64 window. -/
def zi64toa (n : Int) (width : Nat) (flags : FmtFlags) : List Char :=
  if -2147483648 ≤ n ∧ n ≤ 2147483647 then zi32toa n width flags
  else
    let tmp := if n = 0 then [0] else decRev n.natAbs
    let fd := tmp.length - 1
    let body := tmp.reverse.map DTOCHAR
    let sgn := addSign (decide (n < 0)) flags
    if width ≠ 0 then
      let w0 := clampWidth 19 width
      if flags.zeropad then sgn ++ List.replicate (w0 - fd) '0' ++ body
      else List.replicate (w0 - fd) ' ' ++ sgn ++ body
    else sgn ++ body

/-- zu64toa: unsigned 64-bit decimal renderer; values fitting uint32 are
redirected to zu32toa. -/
def zu64toa (n : Nat) (width : Nat) (flags : FmtFlags) : List Char :=
  if n ≤ 4294967295 then zu32toa n width flags
  else
    let tmp := if n = 0 then [0] else decRev n
    let fd := tmp.length - 1
    let body := tmp.reverse.map DTOCHAR
    if width ≠ 0 then
      let w0 := clampWidth 20 width
      (if flags.zeropad then List.replicate (w0 - fd) '0'
       else List.replicate (w0 - fd) ' ') ++ body
    else body

/-- exact rational value, kept as an unreduced fraction num / den with a
positive denominator (every construction below preserves positivity).  The
float renderer only ever adds, subtracts, multiplies, compares, truncates
and inverts, so no normalization is needed and every operation is a plain
structural computation. -/
structure QR where
  num : Int
  den : Nat
deriving DecidableEq

def QR.ofInt (i : Int) : QR := ⟨i, 1⟩

def QR.add (x y : QR) : QR := ⟨x.num * (y.den : Int) + y.num * (x.den : Int), x.den * y.den⟩

def QR.sub (x y : QR) : QR := ⟨x.num * (y.den : Int) - y.num * (x.den : Int), x.den * y.den⟩

def QR.mul (x y : QR) : QR := ⟨x.num * y.num, x.den * y.den⟩

def QR.abs (x : QR) : QR := ⟨|x.num|, x.den⟩

/-- strict comparison by cross multiplication. -/
def QR.blt (x y : QR) : Bool := x.num * (y.den : Int) < y.num * (x.den : Int)

/-- non-strict comparison by cross multiplication. -/
def QR.ble (x y : QR) : Bool := x.num * (y.den : Int) ≤ y.num * (x.den : Int)

/-- reciprocal (only reached for nonzero values in the renderer). -/
def QR.inv (x : QR) : QR :=
  if x.num = 0 then ⟨0, 1⟩
  else if x.num < 0 then ⟨-(x.den : Int), x.num.natAbs⟩ else ⟨(x.den : Int), x.num.natAbs⟩

/-- truncation toward zero, the effect of (int32_t)x and (unsigned long)x
conversions of a floating value. -/
def truncQ (x : QR) : Int := x.num.tdiv (x.den : Int)

/-- floor of a rational. -/
def floorQ (x : QR) : Int := x.num.fdiv (x.den : Int)

/-- embedded floating value: NaN, infinities, or a finite exact value. -/
inductive FVal
  | nan
  | pinf
  | ninf
  | fin (q : QR)
deriving DecidableEq

/-- fuel-driven digit counter (kernel-evaluable, unlike Nat.log). -/
def ndAux (b : Nat) : Nat → Nat → Nat
  | 0, _ => 0
  | f + 1, m => if m = 0 then 0 else ndAux b f (m / b) + 1

/-- number of base-b digits of m (1 for m = 0). -/
def numDigitsB (b : Nat) (m : Nat) : Nat := max 1 (ndAux b m m)

/-- exact value of (int)log10l(q) for q > 0: floor of log10 for q ≥ 1 and
truncation toward zero below 1.  The source tolerates the libm log being low
by one (the !(int32_t)f correction) or high by one (the whole >= 10 carry),
so the exact value is the faithful idealization. -/
def ilog10 (q : QR) : Int :=
  if QR.ble (QR.ofInt 1) q then ((numDigitsB 10 (floorQ q).toNat - 1 : Nat) : Int)
  else -((numDigitsB 10 (floorQ (QR.inv q)).toNat - 1 : Nat) : Int)

/-- powl(10, z) for integer z, exact. -/
def pow10Z (z : Int) : QR :=
  if 0 ≤ z then ⟨(10 : Int) ^ z.toNat, 1⟩ else ⟨1, 10 ^ (-z).toNat⟩

/-- fraction flags inside the float renderers: { .zeropad = 1 }. -/
def fracFlags : FmtFlags := ⟨false, SignT.auto_sign, false, true, ExpFormT.exp_none⟩

/-- exponent flags inside the float renderers:
{ .sign = always_sign, .zeropad = 1 }. -/
def expFlags : FmtFlags := ⟨false, SignT.always_sign, false, true, ExpFormT.exp_none⟩

/-- zftoal: long double renderer (zftoa resolves to it on this platform).
Finite arithmetic is carried out exactly over the rationals; the decimal
constants 0.5e-p, 1e+p and 0.1 are exact here.  The int32 truncations cannot
wrap: the exp_none path is guarded by the INT32_MAX - 1 magnitude check and
the exponent path normalizes the mantissa into [1, 10). -/
def zftoal (v : FVal) (width : Nat) (precision : Nat) (flags : FmtFlags) : List Char :=
  match v with
  | FVal.nan => ['N', 'A', 'N']
  | FVal.ninf => ['-', 'I', 'N', 'F']
  | FVal.pinf => ['I', 'N', 'F']
  | FVal.fin q =>
    let flags := if flags.exp = ExpFormT.exp_none ∧ QR.blt (QR.ofInt 2147483646) (QR.abs q) then
      setExp flags ExpFormT.exp_e else flags
    let fe : QR × Int :=
      if flags.exp ≠ ExpFormT.exp_none then
        if QR.blt (QR.ofInt 0) (QR.abs q) then
          let e0 := ilog10 (QR.abs q)
          let f0 := QR.mul q (pow10Z (-e0))
          if truncQ f0 = 0 then (QR.mul f0 (QR.ofInt 10), e0 - 1) else (f0, e0)
        else (q, 0)
      else (q, 0)
    let precision := if precision ≤ 8 then precision else 9
    let frnd : QR := ⟨1, 2 * 10 ^ precision⟩
    let fmul : QR := ⟨(10 : Int) ^ precision, 1⟩
    let rounded := if QR.blt fe.1 (QR.ofInt 0) then QR.sub fe.1 frnd else QR.add fe.1 frnd
    let whole := truncQ rounded
    let rew : QR × Int × Int :=
      if flags.exp ≠ ExpFormT.exp_none ∧ 10 ≤ whole then
        let r := QR.mul rounded ⟨1, 10⟩
        (r, fe.2 + 1, truncQ r)
      else (rounded, fe.2, whole)
    let rounded := rew.1
    let exponent := rew.2.1
    let whole := rew.2.2
    let nz : List Char × FmtFlags :=
      if whole = 0 ∧ QR.blt q (QR.ofInt 0) then (['-'], setSign flags SignT.auto_sign)
      else ([], flags)
    let flags := nz.2
    let wholeStr :=
      if 32767 < whole ∨ 4 < width then zi64toa whole width flags
      else zi32toa whole width flags
    let dot := if precision ≠ 0 ∨ flags.exp ≠ ExpFormT.exp_none then ['.'] else []
    let fracStr :=
      if precision ≠ 0 then
        let fraction := QR.abs (QR.mul fmul (QR.sub rounded (QR.ofInt whole)))
        if QR.blt (QR.ofInt 65535) fraction ∨ 4 < precision then
          zu64toa (truncQ fraction).toNat precision fracFlags
        else zu32toa (truncQ fraction).toNat precision fracFlags
      else []
    let expStr :=
      if flags.exp = ExpFormT.exp_e then 'e' :: zi32toa exponent 3 expFlags
      else if flags.exp = ExpFormT.exp_E then 'E' :: zi32toa exponent 3 expFlags
      else []
    nz.1 ++ wholeStr ++ dot ++ fracStr ++ expStr

/-- zftoaf: float renderer for platforms where double is 32 bits wide; it
differs from zftoal only in the exponent field width (2 instead of 3) once
the arithmetic is idealized over the rationals. -/
def zftoaf (v : FVal) (width : Nat) (precision : Nat) (flags : FmtFlags) : List Char :=
  match v with
  | FVal.nan => ['N', 'A', 'N']
  | FVal.ninf => ['-', 'I', 'N', 'F']
  | FVal.pinf => ['I', 'N', 'F']
  | FVal.fin q =>
    let flags := if flags.exp = ExpFormT.exp_none ∧ QR.blt (QR.ofInt 2147483646) (QR.abs q) then
      setExp flags ExpFormT.exp_e else flags
    let fe : QR × Int :=
      if flags.exp ≠ ExpFormT.exp_none then
        if QR.blt (QR.ofInt 0) (QR.abs q) then
          let e0 := ilog10 (QR.abs q)
          let f0 := QR.mul q (pow10Z (-e0))
          if truncQ f0 = 0 then (QR.mul f0 (QR.ofInt 10), e0 - 1) else (f0, e0)
        else (q, 0)
      else (q, 0)
    let precision := if precision ≤ 8 then precision else 9
    let frnd : QR := ⟨1, 2 * 10 ^ precision⟩
    let fmul : QR := ⟨(10 : Int) ^ precision, 1⟩
    let rounded := if QR.blt fe.1 (QR.ofInt 0) then QR.sub fe.1 frnd else QR.add fe.1 frnd
    let whole := truncQ rounded
    let rew : QR × Int × Int :=
      if flags.exp ≠ ExpFormT.exp_none ∧ 10 ≤ whole then
        let r := QR.mul rounded ⟨1, 10⟩
        (r, fe.2 + 1, truncQ r)
      else (rounded, fe.2, whole)
    let rounded := rew.1
    let exponent := rew.2.1
    let whole := rew.2.2
    let nz : List Char × FmtFlags :=
      if whole = 0 ∧ QR.blt q (QR.ofInt 0) then (['-'], setSign flags SignT.auto_sign)
      else ([], flags)
    let flags := nz.2
    let wholeStr :=
      if 32767 < whole ∨ 4 < width then zi64toa whole width flags
      else zi32toa whole width flags
    let dot := if precision ≠ 0 ∨ flags.exp ≠ ExpFormT.exp_none then ['.'] else []
    let fracStr :=
      if precision ≠ 0 then
        let fraction := QR.abs (QR.mul fmul (QR.sub rounded (QR.ofInt whole)))
        if QR.blt (QR.ofInt 65535) fraction ∨ 4 < precision then
          zu64toa (truncQ fraction).toNat precision fracFlags
        else zu32toa (truncQ fraction).toNat precision fracFlags
      else []
    let expStr :=
      if flags.exp = ExpFormT.exp_e then 'e' :: zi32toa exponent 2 expFlags
      else if flags.exp = ExpFormT.exp_E then 'E' :: zi32toa exponent 2 expFlags
      else []
    nz.1 ++ wholeStr ++ dot ++ fracStr ++ expStr

/-- the flag characters recognized by getFlags: "0-+ #". -/
def flagChars : List Char := ['0', '-', '+', ' ', '#']

/-- the characters at which getFlags caps the flags region: ".123456789". -/
def capChars : List Char := ['.', '1', '2', '3', '4', '5', '6', '7', '8', '9']

/-- apply one flag character found by strpbrk inside getFlags.  The ' '
branch is guarded so a space never overrides an earlier '+'. -/
def applyFlag (f : FmtFlags) (c : Char) : FmtFlags :=
  if c = '-' then setLeftAlign f
  else if c = '+' then setSign f SignT.always_sign
  else if c = ' ' ∧ f.sign ≠ SignT.always_sign then setSign f SignT.sign_or_space
  else if c = '#' then setAltForm f
  else if c = '0' then setZeropad f
  else f

/-- the while loop of getFlags: while strpbrk finds a flag character anywhere
in the remaining capped region, apply the first one found and advance the
region start by one.  Returns the accumulated flags and how far the start
advanced. -/
def getFlagsLoop : List Char → FmtFlags → FmtFlags × Nat
  | [], f => (f, 0)
  | c :: rest, f =>
    if (c :: rest).any (fun x => flagChars.contains x) then
      let fc := (((c :: rest).find? (fun x => flagChars.contains x)).getD c)
      let r := getFlagsLoop rest (applyFlag f fc)
      (r.1, r.2 + 1)
    else (f, 0)

/-- getFlags: cap the sub-spec at the first of ".123456789", run the flag
loop on the capped region, and return the flags together with the remaining
sub-spec text after the final position. -/
def getFlags (subspec : List Char) : FmtFlags × List Char :=
  let region := subspec.take (subspec.findIdx (fun x => capChars.contains x))
  let r := getFlagsLoop region flags0
  (r.1, subspec.drop r.2)

/-- C isspace over the characters a format string can contain. -/
def cIsSpace (c : Char) : Bool :=
  c = ' ' ∨ c = '\t' ∨ c = '\n' ∨ c = '\x0b' ∨ c = '\x0c' ∨ c = '\r'

/-- numeric value of a digit string. -/
def natOfDigits (l : List Char) : Nat := l.foldl (fun a c => 10 * a + (c.toNat - 48)) 0

/-- strtol(s, endptr, 10): skip whitespace, accept an optional sign, then
digits, saturating at LONG_MAX / LONG_MIN.  Returns the value and the number
of characters consumed; zero consumed models endptr staying at the start
when no digits are found. -/
def strtolModel (s : List Char) : Int × Nat :=
  let ws := s.takeWhile cIsSpace
  let s1 := s.drop ws.length
  let sg : Int × List Char × Nat :=
    match s1 with
    | '-' :: t => (-1, t, 1)
    | '+' :: t => (1, t, 1)
    | t => (1, t, 0)
  let digs := sg.2.1.takeWhile Char.isDigit
  if digs.length = 0 then (0, 0)
  else
    let v : Int := sg.1 * (natOfDigits digs : Int)
    let v := if 9223372036854775807 < v then 9223372036854775807
             else if v < -9223372036854775808 then -9223372036854775808 else v
    (v, ws.length + sg.2.2 + digs.length)

/-- getWidth: '*' means width supplied via argument (ARG_SPECIFIED = -2);
otherwise strtol, whose long result lands in an int return value. -/
def getWidth (s : List Char) : Int × List Char :=
  match s with
  | '*' :: t => (-2, t)
  | _ => ((toInt32 (strtolModel s).1), s.drop (strtolModel s).2)

/-- getPrecision: find '.', otherwise PRECISION_UNSPECIFIED (-1) with endptr
unchanged.  After '.', '*' yields ARG_SPECIFIED with endptr = subspec + 1
(exactly as the source computes it), otherwise strtol; if it consumes
nothing the precision is unspecified with endptr at the digit start. -/
def getPrecision (s : List Char) : Int × List Char :=
  let di := s.findIdx (fun x => x = '.')
  if di = s.length then (-1, s)
  else
    let prec := s.drop (di + 1)
    match prec with
    | '*' :: _ => (-2, s.drop 1)
    | _ =>
      if (strtolModel prec).2 = 0 then (-1, prec)
      else ((toInt32 (strtolModel prec).1), prec.drop (strtolModel prec).2)

/-- length_t from the source. -/
inductive LengthT
  | length_int
  | length_long
  | length_long_long
deriving DecidableEq

/-- strstr(s, "ll"). -/
def hasLL : List Char → Bool
  | 'l' :: 'l' :: _ => true
  | _ :: t => hasLL t
  | [] => false

/-- strstr(s, "hh"). -/
def hasHH : List Char → Bool
  | 'h' :: 'h' :: _ => true
  | _ :: t => hasHH t
  | [] => false

/-- getLength on the remaining sub-spec.  On the modelled LP64 platform
SIZE_MAX == ULONG_MAX and PTRDIFF_MAX == LONG_MAX, so 'z' and 't' resolve to
the long class. -/
def getLength (s : List Char) : LengthT :=
  if hasLL s then LengthT.length_long_long
  else if s.contains 'l' then LengthT.length_long
  else if s.contains 'L' then LengthT.length_long
  else if s.contains 'j' then LengthT.length_long_long
  else if hasHH s then LengthT.length_int
  else if s.contains 'h' then LengthT.length_int
  else if s.contains 'z' then LengthT.length_long
  else if s.contains 't' then LengthT.length_long
  else LengthT.length_int

/-- getSubspec: copy the text strictly between the introducer and the
conversion letter, truncated to fit the 31-byte sub-spec buffer
(sizeof "0-+ #" "-2147483648" "." "-2147483648" "ll" = 31, so 30 content
characters). -/
def getSubspec (between : List Char) : List Char := between.take 30

/-- one variadic argument.  Integer-family arguments (int, long, long long,
the int fetched for %c and for '*' width/precision) are a single constructor;
each fetch applies the exact wrap the C conversion performs. -/
inductive Arg
  | aInt (i : Int)
  | aStr (s : List Char)
  | aPtr (p : Nat)
  | aFloat (v : FVal)
  | aIntPtr
deriving DecidableEq

def fetchInt : List Arg → Option (Int × List Arg)
  | Arg.aInt i :: t => some (i, t)
  | _ => none

def fetchStr : List Arg → Option (List Char × List Arg)
  | Arg.aStr s :: t => some (s, t)
  | _ => none

def fetchPtr : List Arg → Option (Nat × List Arg)
  | Arg.aPtr p :: t => some (p, t)
  | _ => none

def fetchFloat : List Arg → Option (FVal × List Arg)
  | Arg.aFloat v :: t => some (v, t)
  | _ => none

/-- the conversion-letter whitelist handed to strpbrk. -/
def specChars : List Char :=
  ['d', 'u', 'x', 'X', 'f', 'F', 'e', 'E', 'g', 'G', 's', '%', 'i', 'o', 'c', 'p', 'a', 'A']

/-- |value| of a floating argument as fabsl computes it. -/
def fabsF : FVal → FVal
  | FVal.fin q => FVal.fin (QR.abs q)
  | FVal.nan => FVal.nan
  | FVal.pinf => FVal.pinf
  | FVal.ninf => FVal.pinf

/-- floating comparison v < x: false when v is NaN. -/
def fLt (v : FVal) (x : QR) : Bool :=
  match v with
  | FVal.fin q => QR.blt q x
  | FVal.pinf => false
  | FVal.ninf => true
  | FVal.nan => false

/-- floating comparison v > x: false when v is NaN. -/
def fGt (v : FVal) (x : QR) : Bool :=
  match v with
  | FVal.fin q => QR.blt x q
  | FVal.pinf => true
  | FVal.ninf => false
  | FVal.nan => false

/-- GMINF = 0.0001. -/
def GMINF : QR := ⟨1, 10000⟩

/-- GMAXF = 999999.9. -/
def GMAXF : QR := ⟨9999999, 10⟩

/-- the flag adjustment the scanner performs before calling the float
renderer: e/a force exp_e, E/A force exp_E, g/G force an exponent form when
the magnitude falls outside [GMINF, GMAXF]. -/
def floatExpAdjust (c : Char) (v : FVal) (flags : FmtFlags) : FmtFlags :=
  if c = 'e' ∨ c = 'a' then setExp flags ExpFormT.exp_e
  else if c = 'E' ∨ c = 'A' then setExp flags ExpFormT.exp_E
  else if c = 'g' ∨ c = 'G' then
    let absv := fabsF v
    if fLt absv GMINF ∨ fGt absv GMAXF then
      (if c = 'g' then setExp flags ExpFormT.exp_e else setExp flags ExpFormT.exp_E)
    else flags
  else flags

/-- dispatch for the integer conversion letters, with the platform macro
bindings: int class uses zitoa = zi32toa, zutoa = zu32toa,
zxtoa / zXtoa / zotoa at ZS32; long and long long classes use the 64-bit
renderers at ZS64.  'unsigned val = va_arg(ap, int)' feeding zi32toa is the
identity on the int32 window; the corresponding wraps appear explicitly. -/
def doIntTok (c : Char) (len : LengthT) (v : Int) (width : Nat) (flags : FmtFlags) : List Char :=
  match len with
  | LengthT.length_int =>
    if c = 'd' ∨ c = 'i' then zi32toa (toInt32 v) width flags
    else if c = 'u' then zu32toa (toUInt32n v) width flags
    else if c = 'x' then zx64toa IntSize.ZS32 (toUInt32n v) width flags false
    else if c = 'X' then zx64toa IntSize.ZS32 (toUInt32n v) width flags true
    else zo64toa IntSize.ZS32 (toUInt32n v) width flags
  | _ =>
    if c = 'd' ∨ c = 'i' then zi64toa (toInt64 v) width flags
    else if c = 'u' then zu64toa (toUInt64n v) width flags
    else if c = 'x' then zx64toa IntSize.ZS64 (toUInt64n v) width flags false
    else if c = 'X' then zx64toa IntSize.ZS64 (toUInt64n v) width flags true
    else zo64toa IntSize.ZS64 (toUInt64n v) width flags

/-- the part of directive processing after getFlags: parse width, precision
and length in source order, pull '*' width and precision arguments, then
produce the token text.  none models the undefined behavior of a variadic
fetch against a wrong or exhausted argument list. -/
def doDirective2 (c : Char) (flags : FmtFlags) (rest : List Char) (args : List Arg) :
    Option (List Char × List Arg) :=
  let wr := getWidth rest
  let w0 := toUInt32n wr.1
  match (if w0 = 4294967294 then (fetchInt args).map (fun p => (toUInt32n p.1, p.2))
         else some (w0, args)) with
  | none => none
  | some (width, args) =>
    let pr := getPrecision wr.2
    let p0 := toUInt32n pr.1
    match (if p0 = 4294967294 then (fetchInt args).map (fun p => (toUInt32n p.1, p.2))
           else some (p0, args)) with
    | none => none
    | some (precision, args) =>
      let length := getLength pr.2
      if c = '%' then some (['%'], args)
      else if c = 'd' ∨ c = 'i' ∨ c = 'u' ∨ c = 'x' ∨ c = 'X' ∨ c = 'o' then
        (fetchInt args).map (fun p => (doIntTok c length p.1 width flags, p.2))
      else if c = 'f' ∨ c = 'F' ∨ c = 'e' ∨ c = 'E' ∨ c = 'g' ∨ c = 'G' ∨ c = 'a' ∨ c = 'A' then
        (fetchFloat args).map (fun p =>
          let flags := floatExpAdjust c p.1 flags
          let prec := if precision = 4294967295 then 4 else precision
          -- zftoa resolves to zftoal on this platform for both length classes
          (if length = LengthT.length_long then zftoal p.1 width prec flags
           else zftoal p.1 width prec flags, p.2))
      else if c = 'p' then
        (fetchPtr args).map (fun p => (zx64toa IntSize.ZS64 (p.1 % 18446744073709551616) width flags false, p.2))
      else if c = 's' then
        (fetchStr args).map (fun p => (p.1, p.2))
      else if c = 'c' then
        (fetchInt args).map (fun p =>
          let b := (p.1.emod 256).toNat
          (if b = 0 then [] else [Char.ofNat b], p.2))
      else none

/-- process one directive whose conversion letter c was found: parse the
flags and hand the remainder of the sub-spec to doDirective2. -/
def doDirective (c : Char) (subspec : List Char) (args : List Arg) : Option (List Char × List Arg) :=
  let fr := getFlags subspec
  doDirective2 c fr.1 fr.2 args

/-- the output-assembly state of zvsnprintf: remaining capacity, logical
length so far, and the buffer cells written so far (in order). -/
structure StT where
  remain : Nat
  len : Nat
  out : List Char
deriving DecidableEq

/-- one bounded copy: 'len += toklen; if (toklen > remain) toklen = remain;
remain -= toklen; memcpy(dest, tok, toklen); dest += toklen;'  (The literal
spans use >= in place of >, which clamps identically.) -/
def copyPiece (st : StT) (tok : List Char) : StT :=
  ⟨st.remain - tok.length, st.len + tok.length, st.out ++ tok.take st.remain⟩

/-- the closing block of zvsnprintf: copy the tail, then NUL-terminate at the
cursor if capacity remains, else overwrite buf[n-1] when n is nonzero. -/
def finalize (n : Nat) (st : StT) : List Char :=
  if st.remain ≠ 0 then st.out ++ ['\x00']
  else if n ≠ 0 then st.out.set (n - 1) '\x00'
  else st.out

/-- the main scan loop of zvsnprintf.  Each iteration finds the next '%'
(strchr), copies the preceding literal span, searches for a conversion
letter (strpbrk), and either processes the directive, or — when no letter
exists — hits the 'n' side-effect path or resumes right after the
introducer.  The 'n' path executes 'src = spec + 1' with spec == NULL and
then reads from that invalid pointer: undefined behavior, modelled as none.
The fuel argument only drives the structural recursion; every call site
supplies more fuel than the format length, which each iteration strictly
decreases. -/
def scanLoop (n : Nat) : Nat → List Char → List Arg → StT → Option (List Char × Nat)
  | 0, _, _, _ => none
  | fuel + 1, src, args, st =>
    let pre := src.takeWhile (fun c => c ≠ '%')
    if pre.length = src.length then
      let st2 := copyPiece st src
      some (finalize n st2, st2.len)
    else
      let st2 := copyPiece st pre
      let after := src.drop (pre.length + 1)
      let j := after.findIdx (fun c => specChars.contains c)
      if j < after.length then
        match doDirective (after.getD j ' ') (getSubspec (after.take j)) args with
        | none => none
        | some (tok, args2) => scanLoop n fuel (after.drop (j + 1)) args2 (copyPiece st2 tok)
      else
        if after.contains 'n' then none
        else scanLoop n fuel after args st2

/-- zvsnprintf: returns the final buffer contents (the cells actually
written, in order) and the returned logical length; none when the call runs
into undefined behavior. -/
def zvsnprintfModel (n : Nat) (fmt : List Char) (args : List Arg) : Option (List Char × Nat) :=
  scanLoop n (fmt.length + 1) fmt args ⟨n, 0, []⟩

/-- zsnprintf simply forwards to zvsnprintf. -/
def zsnprintfModel (n : Nat) (fmt : List Char) (args : List Arg) : Option (List Char × Nat) :=
  zvsnprintfModel n fmt args

/-- the capacity-free skeleton of the scan: the concatenation of every
literal span and token in emission order (used to state and prove the
capacity contract; the logical length is its length). -/
def emitFlat : Nat → List Char → List Arg → Option (List Char)
  | 0, _, _ => none
  | fuel + 1, src, args =>
    let pre := src.takeWhile (fun c => c ≠ '%')
    if pre.length = src.length then some src
    else
      let after := src.drop (pre.length + 1)
      let j := after.findIdx (fun c => specChars.contains c)
      if j < after.length then
        match doDirective (after.getD j ' ') (getSubspec (after.take j)) args with
        | none => none
        | some (tok, args2) =>
          (emitFlat fuel (after.drop (j + 1)) args2).map (fun rest => pre ++ tok ++ rest)
      else
        if after.contains 'n' then none
        else (emitFlat fuel after args).map (fun rest => pre ++ rest)

/-- the logical (untruncated) formatted length of a call. -/
def logicalLen (fmt : List Char) (args : List Arg) : Option Nat :=
  (emitFlat (fmt.length + 1) fmt args).map List.length

/-- value of a little-endian base-b digit list. -/
def sumDigitsB (b : Nat) (l : List Nat) : Nat := l.foldr (fun d a => d + b * a) 0

/-- numeric value of one rendered digit character (0-9, a-f, A-F). -/
def digitVal (c : Char) : Nat :=
  if 97 ≤ c.toNat then c.toNat - 87
  else if 65 ≤ c.toNat then c.toNat - 55
  else c.toNat - 48

/-- parse a most-significant-first digit string in radix b. -/
def parseRadix (b : Nat) (l : List Char) : Nat := l.foldl (fun a c => b * a + digitVal c) 0

/-! ## General lemmas about the digit machinery -/

theorem ifDiv10_eq (a : Nat) : ifDiv10 a = (a / 10, a % 10) := by
  unfold ifDiv10
  split
  case isTrue => rfl
  case isFalse h =>
    simp only [ne_eq, not_not] at h
    subst h
    rfl

theorem fdScanD_mem : ∀ (ds : List Nat) (i0 fd0 : Nat),
    fdScanD ds i0 fd0 = fd0 ∨
    (i0 ≤ fdScanD ds i0 fd0 ∧ fdScanD ds i0 fd0 < i0 + ds.length ∧
     ds.getD (fdScanD ds i0 fd0 - i0) 0 ≠ 0) := by
  intro ds
  induction ds with
  | nil => intro i0 fd0; exact Or.inl rfl
  | cons d t ih =>
    intro i0 fd0
    simp only [fdScanD]
    by_cases hd : d ≠ 0
    · rw [if_pos hd]
      rcases ih (i0 + 1) i0 with h | h
      · right
        rw [h]
        refine ⟨Nat.le_refl _, by simp only [List.length_cons]; omega, ?_⟩
        simpa [Nat.sub_self] using hd
      · right
        obtain ⟨h1, h2, h3⟩ := h
        refine ⟨by omega, by simp only [List.length_cons]; omega, ?_⟩
        have hstep : fdScanD t (i0 + 1) i0 - i0 = (fdScanD t (i0 + 1) i0 - (i0 + 1)) + 1 := by omega
        rw [hstep]
        simpa using h3
    · rw [if_neg hd]
      rcases ih (i0 + 1) fd0 with h | h
      · exact Or.inl h
      · right
        obtain ⟨h1, h2, h3⟩ := h
        refine ⟨by omega, by simp only [List.length_cons]; omega, ?_⟩
        have hstep : fdScanD t (i0 + 1) fd0 - i0 = (fdScanD t (i0 + 1) fd0 - (i0 + 1)) + 1 := by omega
        rw [hstep]
        simpa using h3

theorem fdScanD_drop_zero : ∀ (ds : List Nat) (i0 fd0 : Nat), fd0 < i0 →
    ∀ d ∈ ds.drop (fdScanD ds i0 fd0 + 1 - i0), d = 0 := by
  intro ds
  induction ds with
  | nil => intro i0 fd0 _ d hd; simp at hd
  | cons x t ih =>
    intro i0 fd0 hlt d hd
    simp only [fdScanD] at hd
    by_cases hx : x ≠ 0
    · rw [if_pos hx] at hd
      have hge : i0 ≤ fdScanD t (i0 + 1) i0 := by
        rcases fdScanD_mem t (i0 + 1) i0 with h | h
        · omega
        · omega
      have hstep : fdScanD t (i0 + 1) i0 + 1 - i0 = (fdScanD t (i0 + 1) i0 + 1 - (i0 + 1)) + 1 := by
        omega
      rw [hstep, List.drop_succ_cons] at hd
      exact ih (i0 + 1) i0 (by omega) d hd
    · rw [if_neg hx] at hd
      rcases fdScanD_mem t (i0 + 1) fd0 with hm | hm
      · rw [hm] at hd
        have hz : fd0 + 1 - i0 = 0 := by omega
        rw [hz, List.drop_zero] at hd
        rcases List.mem_cons.mp hd with hdx | hdt
        · simp only [ne_eq, not_not] at hx
          omega
        · have hrec := ih (i0 + 1) fd0 (by omega) d
          rw [hm] at hrec
          have hz2 : fd0 + 1 - (i0 + 1) = 0 := by omega
          rw [hz2, List.drop_zero] at hrec
          exact hrec hdt
      · obtain ⟨h1, h2, h3⟩ := hm
        have hstep : fdScanD t (i0 + 1) fd0 + 1 - i0 = (fdScanD t (i0 + 1) fd0 + 1 - (i0 + 1)) + 1 := by
          omega
        rw [hstep, List.drop_succ_cons] at hd
        exact ih (i0 + 1) fd0 (by omega) d hd

theorem sumDigitsB_append (b : Nat) (l1 l2 : List Nat) :
    sumDigitsB b (l1 ++ l2) = sumDigitsB b l1 + b ^ l1.length * sumDigitsB b l2 := by
  induction l1 with
  | nil => simp [sumDigitsB]
  | cons x t ih =>
    simp only [sumDigitsB, List.foldr_cons, List.cons_append, List.length_cons] at *
    rw [ih]
    ring

theorem sumDigitsB_zero (b : Nat) (l : List Nat) (h : ∀ d ∈ l, d = 0) : sumDigitsB b l = 0 := by
  induction l with
  | nil => rfl
  | cons x t ih =>
    simp only [sumDigitsB, List.foldr_cons]
    have hx : x = 0 := h x (List.mem_cons_self x t)
    have ht : sumDigitsB b t = 0 := ih (fun d hd => h d (List.mem_cons_of_mem x hd))
    simp only [sumDigitsB] at ht
    rw [hx, ht]
    simp

theorem sumDigitsB_lt (b : Nat) (hb : 1 ≤ b) (l : List Nat) (h : ∀ d ∈ l, d < b) :
    sumDigitsB b l < b ^ l.length := by
  induction l with
  | nil => simp [sumDigitsB]
  | cons x t ih =>
    simp only [sumDigitsB, List.foldr_cons, List.length_cons, pow_succ']
    have hx : x < b := h x (List.mem_cons_self x t)
    have ht : sumDigitsB b t < b ^ t.length := ih (fun d hd => h d (List.mem_cons_of_mem x hd))
    simp only [sumDigitsB] at ht
    have hP : 1 ≤ b ^ t.length := Nat.one_le_pow _ _ hb
    have h1 : b * List.foldr (fun d a => d + b * a) 0 t ≤ b * (b ^ t.length - 1) :=
      Nat.mul_le_mul_left b (by omega)
    have h2 : b * (b ^ t.length - 1) + b = b * b ^ t.length := by
      have hPP : b ^ t.length - 1 + 1 = b ^ t.length := by omega
      calc b * (b ^ t.length - 1) + b = b * (b ^ t.length - 1 + 1) := by ring
        _ = b * b ^ t.length := by rw [hPP]
    omega

theorem sumDigitsB_getD_le (b : Nat) (l : List Nat) :
    ∀ k, b ^ k * l.getD k 0 ≤ sumDigitsB b l := by
  induction l with
  | nil => intro k; simp [sumDigitsB, List.getD]
  | cons x t ih =>
    intro k
    cases k with
    | zero => simp [sumDigitsB]
    | succ k =>
      simp only [sumDigitsB, List.foldr_cons, List.getD_cons_succ, pow_succ]
      have hk := ih k
      simp only [sumDigitsB] at hk
      calc b ^ k * b * t.getD k 0 = b * (b ^ k * t.getD k 0) := by ring
        _ ≤ b * List.foldr (fun d a => d + b * a) 0 t := Nat.mul_le_mul_left b hk
        _ ≤ x + b * List.foldr (fun d a => d + b * a) 0 t := Nat.le_add_left _ _

theorem ndAux_spec (b : Nat) (hb : 2 ≤ b) :
    ∀ fuel m, m ≤ fuel → m ≠ 0 →
      b ^ (ndAux b fuel m - 1) ≤ m ∧ m < b ^ ndAux b fuel m ∧ 1 ≤ ndAux b fuel m := by
  intro fuel
  induction fuel with
  | zero => intro m hm hm0; omega
  | succ f ih =>
    intro m hm hm0
    simp only [ndAux, hm0, if_neg, if_false]
    by_cases hq : m / b = 0
    · rw [hq]
      have hnz : ndAux b f 0 = 0 := by cases f <;> simp [ndAux]
      rw [hnz]
      have hmb : m < b := by
        by_contra hge
        have hd1 : 1 ≤ m / b := Nat.one_le_div_iff (by omega) |>.mpr (by omega)
        omega
      refine ⟨by simpa using Nat.one_le_iff_ne_zero.mpr hm0, by simpa using hmb, by omega⟩
    · have hmb : m / b ≤ f := by
        have h2 : m / b < m := Nat.div_lt_self (Nat.pos_of_ne_zero hm0) (by omega)
        omega
      obtain ⟨ih1, ih2, ih3⟩ := ih (m / b) hmb hq
      refine ⟨?_, ?_, by omega⟩
      · have hstep : ndAux b f (m / b) + 1 - 1 = (ndAux b f (m / b) - 1) + 1 := by omega
        rw [hstep, pow_succ]
        calc b ^ (ndAux b f (m / b) - 1) * b ≤ (m / b) * b := Nat.mul_le_mul_right b ih1
          _ ≤ m := Nat.div_mul_le_self m b
      · rw [pow_succ]
        have hdm : b * (m / b) + m % b = m := Nat.div_add_mod m b
        have hmod : m % b < b := Nat.mod_lt m (by omega)
        have hq1 : m < (m / b + 1) * b := by
          have hexp : (m / b + 1) * b = b * (m / b) + b := by ring
          omega
        calc m < (m / b + 1) * b := hq1
          _ ≤ b ^ ndAux b f (m / b) * b := Nat.mul_le_mul_right b ih2

theorem numDigitsB_eq (b k m : Nat) (hb : 2 ≤ b) (h1 : m < b ^ (k + 1))
    (h2 : k = 0 ∨ b ^ k ≤ m) : numDigitsB b m = k + 1 := by
  by_cases hm0 : m = 0
  · subst hm0
    have hk : k = 0 := by
      rcases h2 with h | h
      · exact h
      · exfalso; have : 1 ≤ b ^ k := Nat.one_le_pow _ _ (by omega); omega
    subst hk
    rfl
  · obtain ⟨s1, s2, s3⟩ := ndAux_spec b hb m m (Nat.le_refl m) hm0
    unfold numDigitsB
    have hnd : ndAux b m m = k + 1 := by
      by_contra hne
      rcases Nat.lt_or_ge (ndAux b m m) (k + 1) with h | h
      · -- ndAux ≤ k: m < b ^ ndAux ≤ b ^ k ≤ m
        have hk0 : k ≠ 0 := by
          intro hk
          subst hk
          omega
        have hbk : b ^ k ≤ m := h2.resolve_left hk0
        have hle : b ^ ndAux b m m ≤ b ^ k := Nat.pow_le_pow_right (by omega) (by omega)
        omega
      · have hgt : k + 2 ≤ ndAux b m m := by omega
        have hle : b ^ (k + 1) ≤ b ^ (ndAux b m m - 1) := Nat.pow_le_pow_right (by omega) (by omega)
        omega
    rw [hnd]
    omega

/-- bundled conclusion used by every digit-block spec: a digit list whose
value is m, whose entries are base-bounded, whose entries above fd vanish
and whose entry at fd is nonzero (unless fd = 0) pins the digit count. -/
theorem digits_fd_numD (b : Nat) (hb : 2 ≤ b) (ds : List Nat) (fd m : Nat)
    (hsum : sumDigitsB b ds = m)
    (hlt : ∀ d ∈ ds, d < b)
    (hfdlen : fd + 1 ≤ ds.length)
    (htop : fd ≠ 0 → ds.getD fd 0 ≠ 0)
    (hdrop : ∀ d ∈ ds.drop (fd + 1), d = 0) :
    numDigitsB b m = fd + 1 := by
  apply numDigitsB_eq b fd m hb
  · -- m < b ^ (fd + 1)
    have hsplit : sumDigitsB b ds =
        sumDigitsB b (ds.take (fd + 1)) + b ^ (ds.take (fd + 1)).length * sumDigitsB b (ds.drop (fd + 1)) := by
      conv_lhs => rw [← List.take_append_drop (fd + 1) ds]
      exact sumDigitsB_append b _ _
    have hz : sumDigitsB b (ds.drop (fd + 1)) = 0 := sumDigitsB_zero b _ hdrop
    have htlen : (ds.take (fd + 1)).length = fd + 1 := by
      simp only [List.length_take]
      omega
    have htake : sumDigitsB b (ds.take (fd + 1)) < b ^ (fd + 1) := by
      have hh := sumDigitsB_lt b (by omega) (ds.take (fd + 1))
        (fun d hd => hlt d (List.mem_of_mem_take hd))
      rwa [htlen] at hh
    rw [htlen, hz, Nat.mul_zero, Nat.add_zero] at hsplit
    omega
  · by_cases hfd : fd = 0
    · exact Or.inl hfd
    · right
      have h1 : b ^ fd * ds.getD fd 0 ≤ sumDigitsB b ds := sumDigitsB_getD_le b ds fd
      have h2 : 1 ≤ ds.getD fd 0 := Nat.one_le_iff_ne_zero.mpr (htop hfd)
      calc b ^ fd = b ^ fd * 1 := by ring
        _ ≤ b ^ fd * ds.getD fd 0 := Nat.mul_le_mul_left _ h2
        _ ≤ m := by omega

theorem getD_tail (l : List Nat) (k : Nat) (h : 1 ≤ l.length) :
    l.getD (k + 1) 0 = (l.drop 1).getD k 0 := by
  cases l with
  | nil => simp at h
  | cons x t => simp [List.getD_cons_succ]

/-- packaged reasoning about a renderer digit block: when first_digit is the
fdScanD walk over the digit tail and the digits decompose m in base b, the
digit count of m is first_digit + 1. -/
theorem digits_result_spec (b : Nat) (hb : 2 ≤ b) (ds : List Nat) (fd m : Nat)
    (hfd : fd = fdScanD (ds.drop 1) 1 0)
    (hsum : sumDigitsB b ds = m)
    (hlt : ∀ d ∈ ds, d < b)
    (hlen : 1 ≤ ds.length) :
    fd + 1 ≤ ds.length ∧ numDigitsB b m = fd + 1 := by
  have hmem := fdScanD_mem (ds.drop 1) 1 0
  rw [← hfd] at hmem
  have hdlen : (ds.drop 1).length = ds.length - 1 := by simp [List.length_drop]
  have hfdlen : fd + 1 ≤ ds.length := by
    rcases hmem with h | ⟨h1, h2, h3⟩
    · omega
    · omega
  refine ⟨hfdlen, ?_⟩
  refine digits_fd_numD b hb ds fd m hsum hlt hfdlen ?_ ?_
  · intro hfd0
    rcases hmem with h | ⟨h1, h2, h3⟩
    · omega
    · obtain ⟨k, rfl⟩ : ∃ k, fd = k + 1 := ⟨fd - 1, by omega⟩
      rw [getD_tail ds k (by omega)]
      simpa using h3
  · intro d hd
    have hdz := fdScanD_drop_zero (ds.drop 1) 1 0 (by omega)
    rw [← hfd] at hdz
    have he : fd + 1 - 1 = fd := by omega
    rw [he] at hdz
    refine hdz d ?_
    have hc : 1 + fd = fd + 1 := by omega
    rw [List.drop_drop, hc]
    exact hd

theorem emitDigits_length (tochar : Nat → Char) (dsLE : List Nat) (fd : Nat)
    (h : fd + 1 ≤ dsLE.length) :
    (emitDigits tochar dsLE fd).length = fd + 1 := by
  unfold emitDigits
  simp [List.length_take, List.length_drop]
  omega

theorem addSign_length (neg : Bool) (f : FmtFlags) :
    (addSign neg f).length = if neg = true ∨ f.sign ≠ SignT.auto_sign then 1 else 0 := by
  unfold addSign
  rcases neg with _ | _ <;> rcases hs : f.sign <;> simp [hs]

set_option maxHeartbeats 1000000 in
theorem z32digits_spec (m : Nat) (hm : m < 4294967296) :
    (z32digits m).1.length = 10 ∧ (z32digits m).2 ≤ 9 ∧
    numDigitsB 10 m = (z32digits m).2 + 1 := by
  simp only [z32digits, ifDiv10_eq]
  set n0 := m % 16 with hn0
  set n1 := m / 16 % 16 with hn1
  set n2 := m / 256 % 16 with hn2
  set n3 := m / 4096 % 16 with hn3
  set n4 := m / 65536 % 16 with hn4
  set n5 := m / 1048576 % 16 with hn5
  set n6 := m / 16777216 % 16 with hn6
  set n7 := m / 268435456 % 16 with hn7
  have hb0 : n0 < 16 := by omega
  have hb1 : n1 < 16 := by omega
  have hb2 : n2 < 16 := by omega
  have hb3 : n3 < 16 := by omega
  have hb4 : n4 < 16 := by omega
  have hb5 : n5 < 16 := by omega
  have hb6 : n6 < 16 := by omega
  have hb7 : n7 < 16 := by omega
  have hm2 : m = n0 + 16 * n1 + 256 * n2 + 4096 * n3 + 65536 * n4 + 1048576 * n5 +
      16777216 * n6 + 268435456 * n7 := by omega
  clear_value n0 n1 n2 n3 n4 n5 n6 n7
  clear hn0 hn1 hn2 hn3 hn4 hn5 hn6 hn7
  set a0 := 6 * (n7 + n6 + n5 + n4 + n3 + n2 + n1) + n0 with ha0
  set q0 := a0 / 10 with hq0
  set d0 := a0 % 10 with hd0
  set a1 := q0 + 5 * n7 + n6 + 7 * n5 + 3 * n4 + 9 * n3 + 5 * n2 + n1 with ha1
  set q1 := a1 / 10 with hq1
  set d1 := a1 % 10 with hd1
  set a2 := q1 + 4 * n7 + 2 * n6 + 5 * n5 + 5 * n4 + 2 * n2 with ha2
  set q2 := a2 / 10 with hq2
  set d2 := a2 % 10 with hd2
  set a3 := q2 + 5 * n7 + 7 * n6 + 8 * n5 + 5 * n4 + 4 * n3 with ha3
  set q3 := a3 / 10 with hq3
  set d3 := a3 % 10 with hd3
  set a4 := q3 + 3 * n7 + 7 * n6 + 4 * n5 + 6 * n4 with ha4
  set q4 := a4 / 10 with hq4
  set d4 := a4 % 10 with hd4
  set a5 := q4 + 4 * n7 + 7 * n6 with ha5
  set q5 := a5 / 10 with hq5
  set d5 := a5 % 10 with hd5
  set a6 := q5 + 8 * n7 + 6 * n6 + n5 with ha6
  set q6 := a6 / 10 with hq6
  set d6 := a6 % 10 with hd6
  set a7 := q6 + 6 * n7 + n6 with ha7
  set q7 := a7 / 10 with hq7
  set d7 := a7 % 10 with hd7
  set a8 := q7 + 2 * n7 with ha8
  set q8 := a8 / 10 with hq8
  set d8 := a8 % 10 with hd8
  set fd := fdScanD [d1, d2, d3, d4, d5, d6, d7, d8, q8] 1 0 with hfd
  clear_value a0 q0 d0 a1 q1 d1 a2 q2 d2 a3 q3 d3 a4 q4 d4 a5 q5 d5 a6 q6 d6 a7 q7 d7 a8 q8 d8 fd
  have e0 : 10 * q0 + d0 = a0 := by rw [hq0, hd0]; exact Nat.div_add_mod a0 10
  have f0 : d0 < 10 := by rw [hd0]; exact Nat.mod_lt _ (by norm_num)
  have e1 : 10 * q1 + d1 = a1 := by rw [hq1, hd1]; exact Nat.div_add_mod a1 10
  have f1 : d1 < 10 := by rw [hd1]; exact Nat.mod_lt _ (by norm_num)
  have e2 : 10 * q2 + d2 = a2 := by rw [hq2, hd2]; exact Nat.div_add_mod a2 10
  have f2 : d2 < 10 := by rw [hd2]; exact Nat.mod_lt _ (by norm_num)
  have e3 : 10 * q3 + d3 = a3 := by rw [hq3, hd3]; exact Nat.div_add_mod a3 10
  have f3 : d3 < 10 := by rw [hd3]; exact Nat.mod_lt _ (by norm_num)
  have e4 : 10 * q4 + d4 = a4 := by rw [hq4, hd4]; exact Nat.div_add_mod a4 10
  have f4 : d4 < 10 := by rw [hd4]; exact Nat.mod_lt _ (by norm_num)
  have e5 : 10 * q5 + d5 = a5 := by rw [hq5, hd5]; exact Nat.div_add_mod a5 10
  have f5 : d5 < 10 := by rw [hd5]; exact Nat.mod_lt _ (by norm_num)
  have e6 : 10 * q6 + d6 = a6 := by rw [hq6, hd6]; exact Nat.div_add_mod a6 10
  have f6 : d6 < 10 := by rw [hd6]; exact Nat.mod_lt _ (by norm_num)
  have e7 : 10 * q7 + d7 = a7 := by rw [hq7, hd7]; exact Nat.div_add_mod a7 10
  have f7 : d7 < 10 := by rw [hd7]; exact Nat.mod_lt _ (by norm_num)
  have e8 : 10 * q8 + d8 = a8 := by rw [hq8, hd8]; exact Nat.div_add_mod a8 10
  have f8 : d8 < 10 := by rw [hd8]; exact Nat.mod_lt _ (by norm_num)
  clear hq0 hd0 hq1 hd1 hq2 hd2 hq3 hd3 hq4 hd4 hq5 hd5 hq6 hd6 hq7 hd7 hq8 hd8
  have hsum : sumDigitsB 10 [d0, d1, d2, d3, d4, d5, d6, d7, d8, q8] = m := by
    simp only [sumDigitsB, List.foldr_cons, List.foldr_nil]
    zify at e0 e1 e2 e3 e4 e5 e6 e7 e8 ha0 ha1 ha2 ha3 ha4 ha5 ha6 ha7 ha8 hm2 ⊢
    linarith
  have f9 : q8 < 10 := by
    zify at e0 e1 e2 e3 e4 e5 e6 e7 e8 ha0 ha1 ha2 ha3 ha4 ha5 ha6 ha7 ha8 hm2 hm ⊢
    linarith
  clear ha0 ha1 ha2 ha3 ha4 ha5 ha6 ha7 ha8 e0 e1 e2 e3 e4 e5 e6 e7 e8
  clear hb0 hb1 hb2 hb3 hb4 hb5 hb6 hb7 hm2
  have hlt : ∀ d ∈ [d0, d1, d2, d3, d4, d5, d6, d7, d8, q8], d < 10 := by
    intro d hd
    simp only [List.mem_cons, List.not_mem_nil, or_false] at hd
    rcases hd with rfl | rfl | rfl | rfl | rfl | rfl | rfl | rfl | rfl | rfl
    exacts [f0, f1, f2, f3, f4, f5, f6, f7, f8, f9]
  have hres := digits_result_spec 10 (by norm_num) [d0, d1, d2, d3, d4, d5, d6, d7, d8, q8]
    fd m (by rw [hfd]; rfl) hsum hlt (by simp)
  obtain ⟨hfdlen, hnum⟩ := hres
  simp only [List.length_cons, List.length_nil] at hfdlen
  exact ⟨rfl, by omega, hnum⟩

set_option maxHeartbeats 1000000 in
theorem z16digits_spec (m : Nat) (hm : m < 65536) :
    (z16digits m).1.length = 5 ∧ (z16digits m).2 ≤ 4 ∧
    numDigitsB 10 m = (z16digits m).2 + 1 := by
  simp only [z16digits, ifDiv10_eq]
  set n0 := m % 16 with hn0
  set n1 := m / 16 % 16 with hn1
  set n2 := m / 256 % 16 with hn2
  set n3 := m / 4096 % 16 with hn3
  have hb0 : n0 < 16 := by omega
  have hb1 : n1 < 16 := by omega
  have hb2 : n2 < 16 := by omega
  have hb3 : n3 < 16 := by omega
  have hm2 : m = n0 + 16 * n1 + 256 * n2 + 4096 * n3 := by omega
  clear_value n0 n1 n2 n3
  clear hn0 hn1 hn2 hn3
  set a0 := 6 * (n3 + n2 + n1) + n0 with ha0
  set q0 := a0 / 10 with hq0
  set d0 := a0 % 10 with hd0
  set a1 := q0 + 9 * n3 + 5 * n2 + n1 with ha1
  set q1 := a1 / 10 with hq1
  set d1 := a1 % 10 with hd1
  set a2 := q1 + 2 * n2 with ha2
  set q2 := a2 / 10 with hq2
  set d2 := a2 % 10 with hd2
  set a3 := q2 + 4 * n3 with ha3
  set q3 := a3 / 10 with hq3
  set d3 := a3 % 10 with hd3
  set fd := fdScanD [d1, d2, d3, q3] 1 0 with hfd
  clear_value a0 q0 d0 a1 q1 d1 a2 q2 d2 a3 q3 d3 fd
  have e0 : 10 * q0 + d0 = a0 := by rw [hq0, hd0]; exact Nat.div_add_mod a0 10
  have f0 : d0 < 10 := by rw [hd0]; exact Nat.mod_lt _ (by norm_num)
  have e1 : 10 * q1 + d1 = a1 := by rw [hq1, hd1]; exact Nat.div_add_mod a1 10
  have f1 : d1 < 10 := by rw [hd1]; exact Nat.mod_lt _ (by norm_num)
  have e2 : 10 * q2 + d2 = a2 := by rw [hq2, hd2]; exact Nat.div_add_mod a2 10
  have f2 : d2 < 10 := by rw [hd2]; exact Nat.mod_lt _ (by norm_num)
  have e3 : 10 * q3 + d3 = a3 := by rw [hq3, hd3]; exact Nat.div_add_mod a3 10
  have f3 : d3 < 10 := by rw [hd3]; exact Nat.mod_lt _ (by norm_num)
  clear hq0 hd0 hq1 hd1 hq2 hd2 hq3 hd3
  have hsum : sumDigitsB 10 [d0, d1, d2, d3, q3] = m := by
    simp only [sumDigitsB, List.foldr_cons, List.foldr_nil]
    zify at e0 e1 e2 e3 ha0 ha1 ha2 ha3 hm2 ⊢
    linarith
  have f4 : q3 < 10 := by
    zify at e0 e1 e2 e3 ha0 ha1 ha2 ha3 hm2 hm ⊢
    linarith
  clear ha0 ha1 ha2 ha3 e0 e1 e2 e3 hb0 hb1 hb2 hb3 hm2
  have hlt : ∀ d ∈ [d0, d1, d2, d3, q3], d < 10 := by
    intro d hd
    simp only [List.mem_cons, List.not_mem_nil, or_false] at hd
    rcases hd with rfl | rfl | rfl | rfl | rfl
    exacts [f0, f1, f2, f3, f4]
  have hres := digits_result_spec 10 (by norm_num) [d0, d1, d2, d3, q3]
    fd m (by rw [hfd]; rfl) hsum hlt (by simp)
  obtain ⟨hfdlen, hnum⟩ := hres
  simp only [List.length_cons, List.length_nil] at hfdlen
  exact ⟨rfl, by omega, hnum⟩

set_option maxHeartbeats 1600000 in
theorem zx64digits_spec (size : IntSize) (n : Nat) (hs : 1 ≤ size.val)
    (hn : n < 18446744073709551616) :
    (zx64digits size n).1.length = 16 ∧ (zx64digits size n).2 ≤ 15 ∧
    numDigitsB 16 n = (zx64digits size n).2 + 1 := by
  have hsum : sumDigitsB 16 ((zx64digits size n).1) = n := by
    cases size
    case ZS64 => simp [IntSize.val] at hs
    all_goals
      simp only [zx64digits, IntSize.val]
      norm_num [sumDigitsB]
      omega
  have hlt : ∀ d ∈ (zx64digits size n).1, d < 16 := by
    cases size
    case ZS64 => simp [IntSize.val] at hs
    all_goals
      intro d hd
      simp [zx64digits, IntSize.val] at hd
      rcases hd with rfl | rfl | rfl | rfl | rfl | rfl | rfl | rfl | rfl | rfl | rfl | rfl | rfl | rfl | rfl | rfl <;>
        exact Nat.mod_lt _ (by norm_num)
  have hres := digits_result_spec 16 (by norm_num) ((zx64digits size n).1)
    ((zx64digits size n).2) n rfl hsum hlt (by cases size <;> simp [zx64digits])
  have hlen : (zx64digits size n).1.length = 16 := by cases size <;> rfl
  obtain ⟨hfdlen, hnum⟩ := hres
  rw [hlen] at hfdlen
  exact ⟨hlen, by omega, hnum⟩

set_option maxHeartbeats 1600000 in
theorem zo64digits_spec (size : IntSize) (n : Nat) (hs : 1 ≤ size.val)
    (hn : n < 18446744073709551616) :
    (zo64digits size n).1.length = 22 ∧ (zo64digits size n).2 ≤ 21 ∧
    numDigitsB 8 n = (zo64digits size n).2 + 1 := by
  have hsum : sumDigitsB 8 ((zo64digits size n).1) = n := by
    cases size
    case ZS64 => simp [IntSize.val] at hs
    all_goals
      simp only [zo64digits, IntSize.val]
      norm_num [sumDigitsB]
      omega
  have hlt : ∀ d ∈ (zo64digits size n).1, d < 8 := by
    cases size
    case ZS64 => simp [IntSize.val] at hs
    all_goals
      intro d hd
      simp [zo64digits, IntSize.val] at hd
      rcases hd with rfl | rfl | rfl | rfl | rfl | rfl | rfl | rfl | rfl | rfl | rfl | rfl | rfl | rfl | rfl | rfl | rfl | rfl | rfl | rfl | rfl | rfl <;>
        exact Nat.mod_lt _ (by norm_num)
  have hres := digits_result_spec 8 (by norm_num) ((zo64digits size n).1)
    ((zo64digits size n).2) n rfl hsum hlt (by cases size <;> simp [zo64digits])
  have hlen : (zo64digits size n).1.length = 22 := by cases size <;> rfl
  obtain ⟨hfdlen, hnum⟩ := hres
  rw [hlen] at hfdlen
  exact ⟨hlen, by omega, hnum⟩

theorem decRev_length_bounds : ∀ m, m ≠ 0 →
    1 ≤ (decRev m).length ∧ 10 ^ ((decRev m).length - 1) ≤ m ∧ m < 10 ^ (decRev m).length := by
  intro m
  induction m using Nat.strong_induction_on with
  | _ m ih =>
    intro hm
    rw [decRev, dif_neg hm]
    by_cases hq : m / 10 = 0
    · rw [hq, decRev, dif_pos rfl]
      have hmb : m < 10 := by omega
      simp only [List.length_cons, List.length_nil]
      norm_num
      omega
    · obtain ⟨ih1, ih2, ih3⟩ := ih (m / 10) (Nat.div_lt_self (Nat.pos_of_ne_zero hm) (by omega)) hq
      simp only [List.length_cons]
      refine ⟨by omega, ?_, ?_⟩
      · have hstep : (decRev (m / 10)).length + 1 - 1 = ((decRev (m / 10)).length - 1) + 1 := by
          omega
        rw [hstep, pow_succ]
        calc 10 ^ ((decRev (m / 10)).length - 1) * 10 ≤ (m / 10) * 10 :=
              Nat.mul_le_mul_right 10 ih2
          _ ≤ m := Nat.div_mul_le_self m 10
      · rw [pow_succ]
        have hdm : 10 * (m / 10) + m % 10 = m := Nat.div_add_mod m 10
        have hmod : m % 10 < 10 := Nat.mod_lt m (by omega)
        have hq1 : m < (m / 10 + 1) * 10 := by
          have hexp : (m / 10 + 1) * 10 = 10 * (m / 10) + 10 := by ring
          omega
        calc m < (m / 10 + 1) * 10 := hq1
          _ ≤ 10 ^ (decRev (m / 10)).length * 10 := Nat.mul_le_mul_right 10 ih3

theorem decRev_length (m : Nat) (hm : m ≠ 0) : (decRev m).length = numDigitsB 10 m := by
  obtain ⟨h1, h2, h3⟩ := decRev_length_bounds m hm
  have := numDigitsB_eq 10 ((decRev m).length - 1) m (by norm_num)
    (by have hstep : (decRev m).length - 1 + 1 = (decRev m).length := by omega
        rw [hstep]; exact h3)
    (by rcases Nat.eq_or_lt_of_le h1 with h | h
        · left; omega
        · right; exact h2)
  omega

theorem ite_replicate_length (c : Prop) [Decidable c] (k : Nat) (a b : Char) :
    (if c then List.replicate k a else List.replicate k b).length = k := by
  split <;> simp

/-! ## Rendered-length laws for the integer renderers -/

theorem zu32toa_length (n w : Nat) (f : FmtFlags) (h : n < 4294967296) :
    (zu32toa n w f).length = max (numDigitsB 10 n) (min w 10) := by
  obtain ⟨hlen, hfd, hnum⟩ := z32digits_spec n h
  simp only [zu32toa]
  have hbody : (emitDigits DTOCHAR (z32digits n).1 (z32digits n).2).length = (z32digits n).2 + 1 :=
    emitDigits_length _ _ _ (by omega)
  rw [hnum]
  by_cases hw : w ≠ 0
  · rw [if_pos hw, List.length_append, ite_replicate_length, hbody]
    unfold clampWidth
    split
    · omega
    · omega
  · rw [if_neg hw, hbody]
    omega

theorem zi32toa_length (n : Int) (w : Nat) (f : FmtFlags) (h : n.natAbs < 4294967296) :
    (zi32toa n w f).length =
      (if n < 0 ∨ f.sign ≠ SignT.auto_sign then 1 else 0) +
        max (numDigitsB 10 n.natAbs) (min w 10) := by
  obtain ⟨hlen, hfd, hnum⟩ := z32digits_spec n.natAbs h
  simp only [zi32toa]
  have hbody : (emitDigits DTOCHAR (z32digits n.natAbs).1 (z32digits n.natAbs).2).length =
      (z32digits n.natAbs).2 + 1 :=
    emitDigits_length _ _ _ (by omega)
  have hsgn : (addSign (decide (n < 0)) f).length =
      if n < 0 ∨ f.sign ≠ SignT.auto_sign then 1 else 0 := by
    rw [addSign_length]
    simp only [decide_eq_true_eq]
  rw [hnum]
  by_cases hw : w ≠ 0
  · rw [if_pos hw]
    unfold clampWidth
    by_cases hz : f.zeropad
    · rw [if_pos hz]
      simp only [List.length_append, List.length_replicate, hbody, hsgn]
      by_cases hgt : w > 9
      · rw [if_pos hgt]; omega
      · rw [if_neg hgt]; omega
    · rw [if_neg hz]
      simp only [List.length_append, List.length_replicate, hbody, hsgn]
      by_cases hgt : w > 9
      · rw [if_pos hgt]; omega
      · rw [if_neg hgt]; omega
  · rw [if_neg hw]
    simp only [List.length_append, hbody, hsgn]
    omega

theorem zu16toa_length (n w : Nat) (f : FmtFlags) (h : n < 65536) :
    (zu16toa n w f).length = max (numDigitsB 10 n) (min w 5) := by
  obtain ⟨hlen, hfd, hnum⟩ := z16digits_spec n h
  simp only [zu16toa]
  have hbody : (emitDigits DTOCHAR (z16digits n).1 (z16digits n).2).length = (z16digits n).2 + 1 :=
    emitDigits_length _ _ _ (by omega)
  rw [hnum]
  by_cases hw : w ≠ 0
  · rw [if_pos hw, List.length_append, ite_replicate_length, hbody]
    unfold clampWidth
    split
    · omega
    · omega
  · rw [if_neg hw, hbody]
    omega

theorem zi16toa_length (n : Int) (w : Nat) (f : FmtFlags) (h : n.natAbs < 65536) :
    (zi16toa n w f).length =
      (if n < 0 ∨ f.sign ≠ SignT.auto_sign then 1 else 0) +
        max (numDigitsB 10 n.natAbs) (min w 5) := by
  obtain ⟨hlen, hfd, hnum⟩ := z16digits_spec n.natAbs h
  simp only [zi16toa]
  have hbody : (emitDigits DTOCHAR (z16digits n.natAbs).1 (z16digits n.natAbs).2).length =
      (z16digits n.natAbs).2 + 1 :=
    emitDigits_length _ _ _ (by omega)
  have hsgn : (addSign (decide (n < 0)) f).length =
      if n < 0 ∨ f.sign ≠ SignT.auto_sign then 1 else 0 := by
    rw [addSign_length]
    simp only [decide_eq_true_eq]
  rw [hnum]
  by_cases hw : w ≠ 0
  · rw [if_pos hw]
    unfold clampWidth
    by_cases hz : f.zeropad
    · rw [if_pos hz]
      simp only [List.length_append, List.length_replicate, hbody, hsgn]
      by_cases hgt : w > 4
      · rw [if_pos hgt]; omega
      · rw [if_neg hgt]; omega
    · rw [if_neg hz]
      simp only [List.length_append, List.length_replicate, hbody, hsgn]
      by_cases hgt : w > 4
      · rw [if_pos hgt]; omega
      · rw [if_neg hgt]; omega
  · rw [if_neg hw]
    simp only [List.length_append, hbody, hsgn]
    omega

theorem zx64toa_length (size : IntSize) (n w : Nat) (f : FmtFlags) (u : Bool)
    (hs : 1 ≤ size.val) (h : n < 18446744073709551616) :
    (zx64toa size n w f u).length = max (numDigitsB 16 n) (min w 16) := by
  obtain ⟨hlen, hfd, hnum⟩ := zx64digits_spec size n hs h
  simp only [zx64toa]
  have hbody : (emitDigits (if u then XTOCHAR else xTOCHAR) (zx64digits size n).1
      (zx64digits size n).2).length = (zx64digits size n).2 + 1 :=
    emitDigits_length _ _ _ (by omega)
  rw [hnum]
  by_cases hw : w ≠ 0
  · rw [if_pos hw, List.length_append, ite_replicate_length, hbody]
    unfold clampWidth
    split
    · omega
    · omega
  · rw [if_neg hw, hbody]
    omega

theorem zo64toa_length (size : IntSize) (n w : Nat) (f : FmtFlags)
    (hs : 1 ≤ size.val) (h : n < 18446744073709551616) :
    (zo64toa size n w f).length = max (numDigitsB 8 n) (min w 22) := by
  obtain ⟨hlen, hfd, hnum⟩ := zo64digits_spec size n hs h
  simp only [zo64toa]
  have hbody : (emitDigits XTOCHAR (zo64digits size n).1 (zo64digits size n).2).length =
      (zo64digits size n).2 + 1 :=
    emitDigits_length _ _ _ (by omega)
  rw [hnum]
  by_cases hw : w ≠ 0
  · rw [if_pos hw, List.length_append, ite_replicate_length, hbody]
    unfold clampWidth
    split
    · omega
    · omega
  · rw [if_neg hw, hbody]
    omega

theorem zu64toa_length (n w : Nat) (f : FmtFlags) (h : n < 18446744073709551616) :
    (zu64toa n w f).length =
      max (numDigitsB 10 n) (min w (if n ≤ 4294967295 then 10 else 21)) := by
  simp only [zu64toa]
  by_cases hsmall : n ≤ 4294967295
  · rw [if_pos hsmall, if_pos hsmall]
    exact zu32toa_length n w f (by omega)
  · rw [if_neg hsmall, if_neg hsmall]
    have hnz : n ≠ 0 := by omega
    rw [if_neg hnz]
    have hbody : ((decRev n).reverse.map DTOCHAR).length = numDigitsB 10 n := by
      simp [decRev_length n hnz]
    have hnd := decRev_length n hnz
    obtain ⟨hl1, _, _⟩ := decRev_length_bounds n hnz
    by_cases hw : w ≠ 0
    · rw [if_pos hw, List.length_append, ite_replicate_length, hbody]
      unfold clampWidth
      split
      · omega
      · omega
    · rw [if_neg hw, hbody]
      omega

theorem zi64toa_length (n : Int) (w : Nat) (f : FmtFlags)
    (h : n.natAbs < 18446744073709551616) :
    (zi64toa n w f).length =
      (if n < 0 ∨ f.sign ≠ SignT.auto_sign then 1 else 0) +
        max (numDigitsB 10 n.natAbs)
          (min w (if -2147483648 ≤ n ∧ n ≤ 2147483647 then 10 else 20)) := by
  simp only [zi64toa]
  by_cases hsmall : -2147483648 ≤ n ∧ n ≤ 2147483647
  · rw [if_pos hsmall, if_pos hsmall]
    exact zi32toa_length n w f (by omega)
  · rw [if_neg hsmall, if_neg hsmall]
    have hnz0 : n ≠ 0 := by
      intro hz
      exact hsmall (by subst hz; constructor <;> norm_num)
    rw [if_neg hnz0]
    have hnz : n.natAbs ≠ 0 := by simpa using hnz0
    have hbody : ((decRev n.natAbs).reverse.map DTOCHAR).length = numDigitsB 10 n.natAbs := by
      simp [decRev_length n.natAbs hnz]
    have hnd := decRev_length n.natAbs hnz
    obtain ⟨hl1, _, _⟩ := decRev_length_bounds n.natAbs hnz
    have hsgn : (addSign (decide (n < 0)) f).length =
        if n < 0 ∨ f.sign ≠ SignT.auto_sign then 1 else 0 := by
      rw [addSign_length]
      simp only [decide_eq_true_eq]
    by_cases hw : w ≠ 0
    · rw [if_pos hw]
      unfold clampWidth
      by_cases hz : f.zeropad
      · rw [if_pos hz]
        simp only [List.length_append, List.length_replicate, hbody, hsgn]
        by_cases hgt : w > 19
        · rw [if_pos hgt]; omega
        · rw [if_neg hgt]; omega
      · rw [if_neg hz]
        simp only [List.length_append, List.length_replicate, hbody, hsgn]
        by_cases hgt : w > 19
        · rw [if_pos hgt]; omega
        · rw [if_neg hgt]; omega
    · rw [if_neg hw]
      simp only [List.length_append, hbody, hsgn]
      omega

/-! ## The scan loop: simulation against the capacity-free skeleton -/

theorem copyPiece_append (st : StT) (a b : List Char) :
    copyPiece st (a ++ b) = copyPiece (copyPiece st a) b := by
  unfold copyPiece
  simp only [List.length_append, StT.mk.injEq, List.take_append_eq_append_take,
    List.append_assoc]
  exact ⟨by omega, by omega, trivial⟩

theorem copyPiece_len (st : StT) (a : List Char) :
    (copyPiece st a).len = st.len + a.length := rfl

theorem scanLoop_emitFlat (n : Nat) : ∀ fuel src args st, src.length < fuel →
    scanLoop n fuel src args st =
      (emitFlat fuel src args).map
        (fun flat => (finalize n (copyPiece st flat), st.len + flat.length)) := by
  intro fuel
  induction fuel with
  | zero => intro src args st h; omega
  | succ f ih =>
    intro src args st h
    simp only [scanLoop, emitFlat]
    by_cases hp : (src.takeWhile (fun c => c ≠ '%')).length = src.length
    · rw [if_pos hp, if_pos hp]
      rfl
    · rw [if_neg hp, if_neg hp]
      have hple : (src.takeWhile (fun c => c ≠ '%')).length ≤ src.length :=
        (List.takeWhile_sublist _).length_le
      set pre := src.takeWhile (fun c => c ≠ '%') with hpre
      set after := src.drop (pre.length + 1) with hafter
      have halen : after.length = src.length - (pre.length + 1) := by
        rw [hafter]; simp [List.length_drop]
      set j := after.findIdx (fun c => specChars.contains c) with hj
      by_cases hjl : j < after.length
      · rw [if_pos hjl, if_pos hjl]
        cases hdd : doDirective (after.getD j ' ') (getSubspec (after.take j)) args with
        | none => rfl
        | some p =>
          obtain ⟨tok, args2⟩ := p
          dsimp only
          have hlen2 : (after.drop (j + 1)).length < f := by
            have h3 : (after.drop (j + 1)).length = after.length - (j + 1) := by
              simp [List.length_drop]
            omega
          rw [ih _ _ _ hlen2]
          cases emitFlat f (after.drop (j + 1)) args2 with
          | none => rfl
          | some flat =>
            simp only [Option.map_some']
            have hcp : copyPiece st (pre ++ tok ++ flat) =
                copyPiece (copyPiece (copyPiece st pre) tok) flat := by
              rw [copyPiece_append, copyPiece_append]
            rw [hcp]
            simp only [copyPiece_len, List.length_append, Prod.mk.injEq, Option.some.injEq]
            exact ⟨trivial, by omega⟩
      · rw [if_neg hjl, if_neg hjl]
        by_cases hn : after.contains 'n' = true
        · rw [if_pos hn, if_pos hn]
          rfl
        · rw [if_neg hn, if_neg hn]
          have hlen2 : after.length < f := by omega
          rw [ih _ _ _ hlen2]
          cases emitFlat f after args with
          | none => rfl
          | some flat =>
            simp only [Option.map_some']
            rw [copyPiece_append]
            simp only [copyPiece_len, List.length_append, Prod.mk.injEq, Option.some.injEq]
            exact ⟨trivial, by omega⟩

theorem emitFlat_fuel : ∀ f1 f2 src args, src.length < f1 → src.length < f2 →
    emitFlat f1 src args = emitFlat f2 src args := by
  intro f1
  induction f1 with
  | zero => intro f2 src args h1 h2; omega
  | succ g ih =>
    intro f2 src args h1 h2
    cases f2 with
    | zero => omega
    | succ g2 =>
      simp only [emitFlat]
      by_cases hp : (src.takeWhile (fun c => c ≠ '%')).length = src.length
      · rw [if_pos hp, if_pos hp]
      · rw [if_neg hp, if_neg hp]
        have hple : (src.takeWhile (fun c => c ≠ '%')).length ≤ src.length :=
          (List.takeWhile_sublist _).length_le
        set pre := src.takeWhile (fun c => c ≠ '%') with hpre
        set after := src.drop (pre.length + 1) with hafter
        have halen : after.length = src.length - (pre.length + 1) := by
          rw [hafter]; simp [List.length_drop]
        set j := after.findIdx (fun c => specChars.contains c) with hj
        by_cases hjl : j < after.length
        · rw [if_pos hjl, if_pos hjl]
          cases hdd : doDirective (after.getD j ' ') (getSubspec (after.take j)) args with
          | none => rfl
          | some p =>
            obtain ⟨tok, args2⟩ := p
            dsimp only
            have h3 : (after.drop (j + 1)).length = after.length - (j + 1) := by
              simp [List.length_drop]
            rw [ih g2 (after.drop (j + 1)) args2 (by omega) (by omega)]
        · rw [if_neg hjl, if_neg hjl]
          by_cases hn : after.contains 'n' = true
          · rw [if_pos hn, if_pos hn]
          · rw [if_neg hn, if_neg hn]
            rw [ih g2 after args (by omega) (by omega)]

/-- the closed form of the whole call: the output buffer is the clamped flat
emission with the closing NUL logic applied, and the returned length is the
flat emission length. -/
theorem zvsnprintfModel_eq (n : Nat) (fmt : List Char) (args : List Arg) :
    zvsnprintfModel n fmt args =
      (emitFlat (fmt.length + 1) fmt args).map
        (fun flat => (finalize n ⟨n - flat.length, flat.length, flat.take n⟩, flat.length)) := by
  unfold zvsnprintfModel
  rw [scanLoop_emitFlat n (fmt.length + 1) fmt args ⟨n, 0, []⟩ (by omega)]
  cases emitFlat (fmt.length + 1) fmt args with
  | none => rfl
  | some flat => simp [copyPiece]


set_option maxRecDepth 100000

/-! ## Helper lemmas about takeWhile / findIdx scanning -/

theorem takeWhile_all (p : Char → Bool) : ∀ (l : List Char), (∀ c ∈ l, p c = true) →
    l.takeWhile p = l := by
  intro l
  induction l with
  | nil => intro _; rfl
  | cons a t ih =>
    intro h
    rw [List.takeWhile_cons_of_pos (h a (List.mem_cons_self a t))]
    rw [ih (fun c hc => h c (List.mem_cons_of_mem a hc))]

theorem takeWhile_append_stop (p : Char → Bool) :
    ∀ (l1 : List Char) (x : Char) (l2 : List Char),
    (∀ c ∈ l1, p c = true) → p x = false → (l1 ++ x :: l2).takeWhile p = l1 := by
  intro l1
  induction l1 with
  | nil =>
    intro x l2 _ hx
    simp only [List.nil_append]
    exact List.takeWhile_cons_of_neg (by simp [hx])
  | cons a t ih =>
    intro x l2 h hx
    simp only [List.cons_append]
    rw [List.takeWhile_cons_of_pos (h a (List.mem_cons_self a t))]
    rw [ih x l2 (fun c hc => h c (List.mem_cons_of_mem a hc)) hx]

theorem findIdx_all_neg (p : Char → Bool) : ∀ (l : List Char), (∀ c ∈ l, p c = false) →
    l.findIdx p = l.length := by
  intro l
  induction l with
  | nil => intro _; rfl
  | cons a t ih =>
    intro h
    rw [List.findIdx_cons, h a (List.mem_cons_self a t)]
    simp only [cond_false]
    rw [ih (fun c hc => h c (List.mem_cons_of_mem a hc))]
    rfl

theorem findIdx_append_stop (p : Char → Bool) :
    ∀ (l1 : List Char) (x : Char) (l2 : List Char),
    (∀ c ∈ l1, p c = false) → p x = true → (l1 ++ x :: l2).findIdx p = l1.length := by
  intro l1
  induction l1 with
  | nil =>
    intro x l2 _ hx
    simp only [List.nil_append, List.findIdx_cons, hx, cond_true, List.length_nil]
  | cons a t ih =>
    intro x l2 h hx
    simp only [List.cons_append, List.findIdx_cons, h a (List.mem_cons_self a t), cond_false]
    rw [ih x l2 (fun c hc => h c (List.mem_cons_of_mem a hc)) hx]
    rfl

/-! ## The closing NUL logic in closed form -/

theorem finalize_flat (n : Nat) (flat : List Char) :
    finalize n ⟨n - flat.length, flat.length, flat.take n⟩ =
      if flat.length < n then flat ++ ['\x00']
      else if 0 < n then flat.take (n - 1) ++ ['\x00']
      else [] := by
  simp only [finalize]
  by_cases h1 : flat.length < n
  · rw [if_pos h1]
    have hr : n - flat.length ≠ 0 := by omega
    rw [if_pos hr, List.take_of_length_le (by omega)]
  · rw [if_neg h1]
    have hr : ¬ n - flat.length ≠ 0 := by omega
    rw [if_neg hr]
    by_cases h2 : 0 < n
    · rw [if_pos h2]
      have hne : n ≠ 0 := by omega
      rw [if_pos hne]
      rw [List.set_eq_take_append_cons_drop]
      rw [if_pos (by simp only [List.length_take]; omega)]
      rw [List.take_take]
      have hm : min (n - 1) n = n - 1 := by omega
      rw [hm]
      have hd : (flat.take n).drop (n - 1 + 1) = [] := by
        apply List.drop_eq_nil_of_le
        simp only [List.length_take]
        omega
      rw [hd]
    · rw [if_neg h2]
      have hne : ¬ n ≠ 0 := by omega
      rw [if_neg hne]
      have hz : n = 0 := by omega
      subst hz
      simp

/-! ## One-step unfolding of the flat emission past a directive introducer -/

theorem emitFlat_all_literal (f : Nat) (l : List Char) (args : List Arg)
    (hl : ∀ c ∈ l, c ≠ '%') (hf : 0 < f) :
    emitFlat f l args = some l := by
  cases f with
  | zero => omega
  | succ g =>
    simp only [emitFlat]
    rw [takeWhile_all _ l (fun c hc => decide_eq_true (hl c hc))]
    rw [if_pos rfl]

theorem emitFlat_step (f : Nat) (a rest : List Char) (args : List Arg)
    (ha : ∀ x ∈ a, x ≠ '%') :
    emitFlat (f + 1) (a ++ '%' :: rest) args =
      (if rest.findIdx (fun x => specChars.contains x) < rest.length then
        match doDirective (rest.getD (rest.findIdx (fun x => specChars.contains x)) ' ')
            (getSubspec (rest.take (rest.findIdx (fun x => specChars.contains x)))) args with
        | none => none
        | some (tok, args2) => (emitFlat f
            (rest.drop (rest.findIdx (fun x => specChars.contains x) + 1))
            args2).map (fun r => a ++ tok ++ r)
      else if rest.contains 'n' then none
      else (emitFlat f rest args).map (fun r => a ++ r)) := by
  simp only [emitFlat]
  rw [takeWhile_append_stop _ a '%' rest (fun x hx => decide_eq_true (ha x hx)) (by decide)]
  rw [if_neg (by simp only [List.length_append, List.length_cons]; omega)]
  have hdrop : (a ++ '%' :: rest).drop (a.length + 1) = rest := by
    exact List.drop_append 1
  rw [hdrop]

/-! ## The '#' and '-' flags: recognized, advanced over, and otherwise inert -/

theorem zi64toa_ite (C : Prop) [Decidable C] (n : Int) (w : Nat) (a b : FmtFlags) :
    zi64toa n w (if C then a else b) = if C then zi64toa n w a else zi64toa n w b :=
  apply_ite (zi64toa n w) C a b

theorem zi32toa_ite (C : Prop) [Decidable C] (n : Int) (w : Nat) (a b : FmtFlags) :
    zi32toa n w (if C then a else b) = if C then zi32toa n w a else zi32toa n w b :=
  apply_ite (zi32toa n w) C a b

set_option maxHeartbeats 4000000 in
theorem zftoal_agree (v : FVal) (w p : Nat) (la la2 af af2 : Bool) (s : SignT)
    (z : Bool) (e : ExpFormT) :
    zftoal v w p ⟨la, s, af, z, e⟩ = zftoal v w p ⟨la2, s, af2, z, e⟩ := by
  cases v with
  | nan => rfl
  | pinf => rfl
  | ninf => rfl
  | fin q =>
    simp only [zftoal, setSign, setExp, apply_ite FmtFlags.exp, apply_ite FmtFlags.sign,
      apply_ite FmtFlags.leftAlign, apply_ite FmtFlags.altForm, apply_ite FmtFlags.zeropad,
      apply_ite Prod.fst, apply_ite Prod.snd, zi64toa_ite, zi32toa_ite, ite_self]
    rfl

set_option maxHeartbeats 1000000 in
theorem zftoal_adjust_agree (c : Char) (v : FVal) (wd pr : Nat) (la la2 af af2 : Bool)
    (s : SignT) (z : Bool) (e : ExpFormT) :
    zftoal v wd pr (floatExpAdjust c v ⟨la, s, af, z, e⟩) =
      zftoal v wd pr (floatExpAdjust c v ⟨la2, s, af2, z, e⟩) := by
  simp only [floatExpAdjust]
  split_ifs <;> exact zftoal_agree v wd pr la la2 af af2 s z _

set_option maxHeartbeats 1000000 in
theorem doDirective2_agree (c : Char) (fA gA : FmtFlags) (rest : List Char) (args : List Arg)
    (hs : fA.sign = gA.sign) (hz : fA.zeropad = gA.zeropad) (he : fA.exp = gA.exp) :
    doDirective2 c fA rest args = doDirective2 c gA rest args := by
  obtain ⟨fla, fs, faf, fz, fe⟩ := fA
  obtain ⟨gla, gs, gaf, gz, ge⟩ := gA
  dsimp only at hs hz he
  subst hs; subst hz; subst he
  simp only [doDirective2]
  cases hw : (if toUInt32n (getWidth rest).1 = 4294967294
      then (fetchInt args).map (fun p => (toUInt32n p.1, p.2))
      else some (toUInt32n (getWidth rest).1, args)) with
  | none => rfl
  | some wa =>
    obtain ⟨width, args1⟩ := wa
    dsimp only
    cases hp : (if toUInt32n (getPrecision (getWidth rest).2).1 = 4294967294
        then (fetchInt args1).map (fun p => (toUInt32n p.1, p.2))
        else some (toUInt32n (getPrecision (getWidth rest).2).1, args1)) with
    | none => rfl
    | some pa =>
      obtain ⟨precision, args2⟩ := pa
      dsimp only
      by_cases hpct : c = '%'
      · rw [if_pos hpct, if_pos hpct]
      · rw [if_neg hpct, if_neg hpct]
        by_cases hint : c = 'd' ∨ c = 'i' ∨ c = 'u' ∨ c = 'x' ∨ c = 'X' ∨ c = 'o'
        · rw [if_pos hint, if_pos hint]
          rfl
        · rw [if_neg hint, if_neg hint]
          by_cases hflt : c = 'f' ∨ c = 'F' ∨ c = 'e' ∨ c = 'E' ∨ c = 'g' ∨ c = 'G' ∨
              c = 'a' ∨ c = 'A'
          · rw [if_pos hflt, if_pos hflt]
            refine congrArg (fun F => Option.map F (fetchFloat args2)) (funext fun pv => ?_)
            dsimp only
            rw [zftoal_adjust_agree c pv.1 width
              (if precision = 4294967295 then 4 else precision) fla gla faf gaf fs fz fe]
          · rw [if_neg hflt, if_neg hflt]
            rfl

theorem applyFlag_agree (f g : FmtFlags) (c : Char) (hs : f.sign = g.sign)
    (hz : f.zeropad = g.zeropad) (he : f.exp = g.exp) :
    (applyFlag f c).sign = (applyFlag g c).sign ∧
    (applyFlag f c).zeropad = (applyFlag g c).zeropad ∧
    (applyFlag f c).exp = (applyFlag g c).exp := by
  obtain ⟨fla, fs, faf, fz, fe⟩ := f
  obtain ⟨gla, gs, gaf, gz, ge⟩ := g
  dsimp only at hs hz he
  subst hs; subst hz; subst he
  simp only [applyFlag, setLeftAlign, setSign, setAltForm, setZeropad]
  split_ifs <;> exact ⟨rfl, rfl, rfl⟩

theorem getFlagsLoop_agree : ∀ (r : List Char) (f g : FmtFlags),
    f.sign = g.sign → f.zeropad = g.zeropad → f.exp = g.exp →
    ((getFlagsLoop r f).1.sign = (getFlagsLoop r g).1.sign ∧
     (getFlagsLoop r f).1.zeropad = (getFlagsLoop r g).1.zeropad ∧
     (getFlagsLoop r f).1.exp = (getFlagsLoop r g).1.exp) ∧
    (getFlagsLoop r f).2 = (getFlagsLoop r g).2 := by
  intro r
  induction r with
  | nil => intro f g hs hz he; exact ⟨⟨hs, hz, he⟩, rfl⟩
  | cons a t ih =>
    intro f g hs hz he
    simp only [getFlagsLoop]
    by_cases hany : (a :: t).any (fun x => flagChars.contains x) = true
    · rw [if_pos hany, if_pos hany]
      have hfc := applyFlag_agree f g (((a :: t).find? (fun x => flagChars.contains x)).getD a)
        hs hz he
      obtain ⟨h1, h2⟩ := ih (applyFlag f (((a :: t).find? (fun x => flagChars.contains x)).getD a))
        (applyFlag g (((a :: t).find? (fun x => flagChars.contains x)).getD a))
        hfc.1 hfc.2.1 hfc.2.2
      exact ⟨h1, by rw [h2]⟩
    · rw [if_neg hany, if_neg hany]
      exact ⟨⟨hs, hz, he⟩, rfl⟩

theorem getFlags_cons_agree (ch : Char) (s : List Char) (hch : ch = '#' ∨ ch = '-') :
    ((getFlags (ch :: s)).1.sign = (getFlags s).1.sign ∧
     (getFlags (ch :: s)).1.zeropad = (getFlags s).1.zeropad ∧
     (getFlags (ch :: s)).1.exp = (getFlags s).1.exp) ∧
    (getFlags (ch :: s)).2 = (getFlags s).2 := by
  have hcap : capChars.contains ch = false := by
    rcases hch with h | h <;> subst h <;> decide
  have hflag : flagChars.contains ch = true := by
    rcases hch with h | h <;> subst h <;> decide
  have happ : (applyFlag flags0 ch).sign = flags0.sign ∧
      (applyFlag flags0 ch).zeropad = flags0.zeropad ∧
      (applyFlag flags0 ch).exp = flags0.exp := by
    rcases hch with h | h <;> subst h <;> exact ⟨rfl, rfl, rfl⟩
  simp only [getFlags, List.findIdx_cons, hcap, cond_false, List.take_succ_cons]
  simp only [getFlagsLoop, List.any_cons, hflag, Bool.true_or, if_pos,
    List.find?_cons_of_pos _ hflag, Option.getD_some]
  obtain ⟨⟨h1, h2, h3⟩, h4⟩ := getFlagsLoop_agree
    (s.take (s.findIdx (fun x => capChars.contains x)))
    (applyFlag flags0 ch) flags0 happ.1 happ.2.1 happ.2.2
  refine ⟨⟨h1, h2, h3⟩, ?_⟩
  rw [h4, List.drop_succ_cons]

theorem doDirective_flag_cons (c ch : Char) (s : List Char) (args : List Arg)
    (hch : ch = '#' ∨ ch = '-') :
    doDirective c (ch :: s) args = doDirective c s args := by
  obtain ⟨⟨h1, h2, h3⟩, h4⟩ := getFlags_cons_agree ch s hch
  simp only [doDirective]
  rw [h4]
  exact doDirective2_agree c _ _ _ args h1 h2 h3

/-! ## The claim theorems -/

/-- Claim C1 (corrected: the guarantees hold for every call on which the engine's
behavior is defined, i.e. on which the model returns a result; the '%'-without-letter
'n' path is undefined behavior, see the counterexample).  Whenever zvsnprintf returns,
it returns the logical formatted length, zsnprintf agrees with it, nothing is written
at capacity 0, for positive capacity n the buffer is NUL-terminated within n bytes,
and capacity exactly 1 receives only the terminating NUL. -/
theorem zvsnprintf_capacity_contract (n : Nat) (fmt : List Char) (args : List Arg)
    (out : List Char) (len : Nat)
    (h : zvsnprintfModel n fmt args = some (out, len)) :
    zsnprintfModel n fmt args = some (out, len) ∧
    logicalLen fmt args = some len ∧
    (n = 0 → out = []) ∧
    (0 < n → out.length ≤ n ∧ out.getLast? = some '\x00') ∧
    (n = 1 → out = ['\x00']) := by
  have h0 := h
  rw [zvsnprintfModel_eq] at h
  cases hef : emitFlat (fmt.length + 1) fmt args with
  | none => rw [hef] at h; exact absurd h (by simp)
  | some flat =>
    rw [hef, Option.map_some'] at h
    injection h with hp
    injection hp with hout hlen
    subst hout
    subst hlen
    refine ⟨h0, ?_, ?_, ?_, ?_⟩
    · simp only [logicalLen, hef, Option.map_some']
    · intro h3
      subst h3
      rw [finalize_flat]
      simp
    · intro h4
      rw [finalize_flat]
      by_cases hcc : flat.length < n
      · rw [if_pos hcc]
        refine ⟨?_, List.getLast?_concat _⟩
        simp only [List.length_append, List.length_cons, List.length_nil]
        omega
      · rw [if_neg hcc, if_pos h4]
        refine ⟨?_, List.getLast?_concat _⟩
        simp only [List.length_append, List.length_take, List.length_cons, List.length_nil]
        omega
    · intro h5
      subst h5
      rw [finalize_flat]
      by_cases hcc : flat.length < 1
      · rw [if_pos hcc]
        have hfe : flat = [] := List.eq_nil_of_length_eq_zero (by omega)
        rw [hfe]
        rfl
      · rw [if_neg hcc, if_pos (by omega)]
        rfl

theorem zvsnprintf_capacity_contract_witness :
    zsnprintfModel 1 ("hi".toList) [] = some (['\x00'], 2) ∧
    logicalLen ("hi".toList) [] = some 2 := by
  have h := zvsnprintf_capacity_contract 1 ("hi".toList) [] ['\x00'] 2 (by decide)
  exact ⟨h.1, h.2.1⟩

/-- the claim quantifies over every format string and argument list, but scanning
"%wn" reaches the spec == NULL 'n' side-effect path, whose pointer arithmetic on and
read through a null pointer are undefined behavior: the call has no defined return
value at all (model: none). -/
theorem zvsnprintf_capacity_contract_cex :
    zvsnprintfModel 5 ("%wn".toList) [Arg.aIntPtr] = none := by decide

/-- Claim C2 (corrected): the pad ordering is as stated (zeros after the sign, spaces
before it), but width does not count the sign character: rendering -3 at width 5
yields the 6-character "-00003" under zero padding and "    -3" under space padding,
not the claimed 5-character "-0003" / "   -3". -/
theorem signed_width_pad_ordering :
    zi32toa (-3) 5 (setZeropad flags0) = "-00003".toList ∧
    zi32toa (-3) 5 flags0 = "    -3".toList := by decide

/-- rendering -3 at width 5 does not produce the 5-character strings the claim
predicts: the sign is added on top of the padded digit field. -/
theorem signed_width_counts_sign_cex :
    zi32toa (-3) 5 (setZeropad flags0) ≠ "-0003".toList ∧
    zi32toa (-3) 5 flags0 ≠ "   -3".toList := by decide

/-- Claim C3 (corrected): each integer renderer emits exactly
max (digit count) (min width cap) characters plus one sign character when a sign is
emitted — width never truncates digits, but every renderer silently clamps the
requested width to its own buffer capacity (10/5/16/22/21/20 digit positions), and
the sign is not counted against the width. -/
theorem int_renderer_exact_length :
    (∀ n w f, n < 65536 → (zu16toa n w f).length = max (numDigitsB 10 n) (min w 5)) ∧
    (∀ (n : Int) w f, n.natAbs < 65536 → (zi16toa n w f).length =
      (if n < 0 ∨ f.sign ≠ SignT.auto_sign then 1 else 0) +
        max (numDigitsB 10 n.natAbs) (min w 5)) ∧
    (∀ n w f, n < 4294967296 → (zu32toa n w f).length = max (numDigitsB 10 n) (min w 10)) ∧
    (∀ (n : Int) w f, n.natAbs < 4294967296 → (zi32toa n w f).length =
      (if n < 0 ∨ f.sign ≠ SignT.auto_sign then 1 else 0) +
        max (numDigitsB 10 n.natAbs) (min w 10)) ∧
    (∀ size n w f u, 1 ≤ IntSize.val size → n < 18446744073709551616 →
      (zx64toa size n w f u).length = max (numDigitsB 16 n) (min w 16)) ∧
    (∀ size n w f, 1 ≤ IntSize.val size → n < 18446744073709551616 →
      (zo64toa size n w f).length = max (numDigitsB 8 n) (min w 22)) ∧
    (∀ n w f, n < 18446744073709551616 → (zu64toa n w f).length =
      max (numDigitsB 10 n) (min w (if n ≤ 4294967295 then 10 else 21))) ∧
    (∀ (n : Int) w f, n.natAbs < 18446744073709551616 → (zi64toa n w f).length =
      (if n < 0 ∨ f.sign ≠ SignT.auto_sign then 1 else 0) +
        max (numDigitsB 10 n.natAbs)
          (min w (if -2147483648 ≤ n ∧ n ≤ 2147483647 then 10 else 20))) :=
  ⟨fun n w f h => zu16toa_length n w f h,
   fun n w f h => zi16toa_length n w f h,
   fun n w f h => zu32toa_length n w f h,
   fun n w f h => zi32toa_length n w f h,
   fun size n w f u hs h => zx64toa_length size n w f u hs h,
   fun size n w f hs h => zo64toa_length size n w f hs h,
   fun n w f h => zu64toa_length n w f h,
   fun n w f h => zi64toa_length n w f h⟩

theorem int_renderer_exact_length_witness :
    (zu32toa 1234 7 flags0).length = max (numDigitsB 10 1234) (min 7 10) :=
  int_renderer_exact_length.2.2.1 1234 7 flags0 (by norm_num)

/-- the digit count of 7 is 1 and 1 <= 15, but the rendered text has 10 characters,
not the claimed 15: zu32toa clamps the requested width to its 10-digit capacity. -/
theorem int_renderer_exact_length_cex :
    (zu32toa 7 15 flags0).length = 10 ∧ (zu32toa 7 15 flags0).length ≠ 15 := by decide

/-- Claim C4 (code bug): the digit-extraction guards of zx64toa and zo64toa compare
enumerand values inverted (ZS64 = 0 is the smallest, so 'size >= ZS32' excludes
exactly the 64-bit class), dropping hex digit positions 4-7 and octal positions 6-10
for 64-bit conversions: 0x10000 renders as "0" and octal 0o1000000 renders as "0",
so parsing the rendered text back yields 0, not the original value. -/
theorem radix_roundtrip_guard_bug :
    zx64toa IntSize.ZS64 65536 0 flags0 false = ['0'] ∧
    parseRadix 16 (zx64toa IntSize.ZS64 65536 0 flags0 false) = 0 ∧
    zo64toa IntSize.ZS64 262144 0 flags0 = ['0'] ∧
    parseRadix 8 (zo64toa IntSize.ZS64 262144 0 flags0) = 0 := by decide

/-- Claim C5 (corrected): when no conversion letter follows a '%', only the
introducer itself is dropped; the intervening text is NOT dropped — scanning resumes
right after the '%' and the following characters are emitted as literals (provided
the tail stays letter-free and contains no 'n', which would be undefined behavior). -/
theorem failed_directive_drops_introducer_only (n : Nat) (pre rest : List Char)
    (args : List Arg)
    (hpre : ∀ x ∈ pre, x ≠ '%')
    (hrest : ∀ x ∈ rest, specChars.contains x = false)
    (hn : rest.contains 'n' = false) :
    zvsnprintfModel n (pre ++ '%' :: rest) args = zvsnprintfModel n (pre ++ rest) args := by
  have hrest2 : ∀ x ∈ rest, x ≠ '%' := by
    intro x hx he
    subst he
    exact absurd (hrest '%' hx) (by decide)
  have h2 : emitFlat ((pre ++ rest).length + 1) (pre ++ rest) args = some (pre ++ rest) := by
    refine emitFlat_all_literal _ _ _ ?_ (by omega)
    intro x hx
    rcases List.mem_append.mp hx with h | h
    · exact hpre x h
    · exact hrest2 x h
  have h1 : emitFlat ((pre ++ '%' :: rest).length + 1) (pre ++ '%' :: rest) args
      = some (pre ++ rest) := by
    have hlen1 : (pre ++ '%' :: rest).length + 1 = (pre.length + rest.length + 1) + 1 := by
      simp only [List.length_append, List.length_cons]
      omega
    rw [hlen1, emitFlat_step _ pre rest args hpre]
    rw [findIdx_all_neg _ rest hrest]
    rw [if_neg (by omega)]
    rw [if_neg (by rw [hn]; exact Bool.false_ne_true)]
    rw [emitFlat_all_literal _ rest args hrest2 (by omega)]
    rw [Option.map_some']
  rw [zvsnprintfModel_eq, zvsnprintfModel_eq, h1, h2]

theorem failed_directive_drops_introducer_only_witness :
    zvsnprintfModel 32 ("ab".toList ++ '%' :: "qr".toList) [] =
      zvsnprintfModel 32 ("ab".toList ++ "qr".toList) [] :=
  failed_directive_drops_introducer_only 32 ("ab".toList) ("qr".toList) []
    (by decide) (by decide) (by decide)

/-- the claim predicts that "ab%qr" drops "%qr" entirely and formats as "ab" with
length 2; in fact only the '%' is dropped: the output is "abqr" with length 4 and
the supposedly dropped characters 'q', 'r' appear in the buffer. -/
theorem failed_directive_keeps_tail_cex :
    zvsnprintfModel 32 ("ab%qr".toList) [] = some ("abqr\x00".toList, 4) ∧
    'q' ∈ "abqr\x00".toList := by decide

/-- Claim C6 (code bug): on the no-conversion-letter path with an 'n' in the
remaining text, the code executes 'src = spec + 1' where spec is the NULL strpbrk
result, then reads through that pointer — undefined behavior (it never fetches the
int-pointer argument at all); the model maps the whole call to none. -/
theorem n_path_null_deref :
    zvsnprintfModel 3 ("a%zn".toList) [Arg.aIntPtr] = none := by decide

/-- Claim C7 (corrected): inserting '#' or '-' right after a directive's '%' leaves
the returned length and the whole buffer unchanged whenever the directive's sub-spec
fits the 30-character cap after the insertion (sub-spec up to 29 characters); at the
cap the insertion truncates the sub-spec and can change the output instead (see the
counterexample). -/
theorem flag_insertion_inert (n : Nat) (a : List Char) (ch c : Char) (s b : List Char)
    (args : List Arg)
    (ha : ∀ x ∈ a, x ≠ '%')
    (hch : ch = '#' ∨ ch = '-')
    (hs : ∀ x ∈ s, specChars.contains x = false)
    (hc : specChars.contains c = true)
    (hlen : s.length ≤ 29) :
    zvsnprintfModel n (a ++ '%' :: (ch :: (s ++ c :: b))) args =
      zvsnprintfModel n (a ++ '%' :: (s ++ c :: b)) args := by
  have hchs : specChars.contains ch = false := by
    rcases hch with h | h <;> subst h <;> decide
  rw [zvsnprintfModel_eq, zvsnprintfModel_eq]
  have hA : (a ++ '%' :: (ch :: (s ++ c :: b))).length + 1 =
      (a.length + s.length + b.length + 3) + 1 := by
    simp only [List.length_append, List.length_cons]
    omega
  have hB : (a ++ '%' :: (s ++ c :: b)).length + 1 =
      (a.length + s.length + b.length + 2) + 1 := by
    simp only [List.length_append, List.length_cons]
    omega
  rw [hA, hB, emitFlat_step _ a (ch :: (s ++ c :: b)) args ha,
    emitFlat_step _ a (s ++ c :: b) args ha]
  have hjB : (s ++ c :: b).findIdx (fun x => specChars.contains x) = s.length :=
    findIdx_append_stop _ s c b hs hc
  have hjA : (ch :: (s ++ c :: b)).findIdx (fun x => specChars.contains x) = s.length + 1 := by
    rw [List.findIdx_cons]
    simp only [hchs, cond_false, hjB]
  rw [hjA, hjB]
  rw [if_pos (by simp only [List.length_cons, List.length_append]; omega),
      if_pos (by simp only [List.length_append, List.length_cons]; omega)]
  have hgB : (s ++ c :: b).getD s.length ' ' = c := by
    have h := List.getD_append_right s (c :: b) ' ' s.length (le_refl _)
    simpa using h
  have hgA : (ch :: (s ++ c :: b)).getD (s.length + 1) ' ' = c := by
    rw [List.getD_cons_succ]
    exact hgB
  rw [hgA, hgB]
  have htB : (s ++ c :: b).take s.length = s := List.take_left s (c :: b)
  have htA : (ch :: (s ++ c :: b)).take (s.length + 1) = ch :: s := by
    rw [List.take_succ_cons, htB]
  rw [htA, htB]
  have hsubB : getSubspec s = s := by
    simp only [getSubspec]
    exact List.take_of_length_le (by omega)
  have hsubA : getSubspec (ch :: s) = ch :: s := by
    simp only [getSubspec]
    exact List.take_of_length_le (by simp only [List.length_cons]; omega)
  rw [hsubA, hsubB, doDirective_flag_cons c ch s args hch]
  have hdB : (s ++ c :: b).drop (s.length + 1) = b :=
    (List.drop_append 1 : (s ++ c :: b).drop (s.length + 1) = (c :: b).drop 1)
  have hdA : (ch :: (s ++ c :: b)).drop (s.length + 1 + 1) = b := by
    rw [List.drop_succ_cons]
    exact hdB
  rw [hdA, hdB]
  cases hdd : doDirective c s args with
  | none => rfl
  | some p =>
    obtain ⟨tok, args2⟩ := p
    dsimp only
    rw [emitFlat_fuel (a.length + s.length + b.length + 3)
      (a.length + s.length + b.length + 2) b args2 (by omega) (by omega)]

theorem flag_insertion_inert_witness :
    zvsnprintfModel 32 ("x".toList ++ '%' :: ('#' :: ("07".toList ++ 'd' :: []))) [Arg.aInt 5] =
      zvsnprintfModel 32 ("x".toList ++ '%' :: ("07".toList ++ 'd' :: [])) [Arg.aInt 5] :=
  flag_insertion_inert 32 ("x".toList) '#' 'd' ("07".toList) [] [Arg.aInt 5]
    (by decide) (Or.inl rfl) (by decide) (by decide) (by decide)

/-- with a 30-character sub-spec (28 zero flags then width "12"), inserting '#' after
the '%' pushes the sub-spec over the 30-character buffer cap: the width digit '2' is
truncated away, the width changes from 12 to 1, and the output changes — the flag
insertion is not inert at the cap. -/
theorem flag_insertion_changes_output_cex :
    zvsnprintfModel 32 ("%000000000000000000000000000012d".toList) [Arg.aInt 5] ≠
      zvsnprintfModel 32 ("%#000000000000000000000000000012d".toList) [Arg.aInt 5] := by
  decide

/-- Claim C8 (confirmed): both float renderers map NaN to "NAN", negative infinity to
"-INF" and positive infinity to "INF" for every width, precision and flag
combination, with nothing else added. -/
theorem float_nonfinite_exact (w p : Nat) (f : FmtFlags) :
    zftoal FVal.nan w p f = "NAN".toList ∧
    zftoal FVal.ninf w p f = "-INF".toList ∧
    zftoal FVal.pinf w p f = "INF".toList ∧
    zftoaf FVal.nan w p f = "NAN".toList ∧
    zftoaf FVal.ninf w p f = "-INF".toList ∧
    zftoaf FVal.pinf w p f = "INF".toList :=
  ⟨rfl, rfl, rfl, rfl, rfl, rfl⟩

/-- Claim C9 (confirmed): fixed-form rendering of 2.345 at precision 2 yields "2.35"
(and -2.345 yields "-2.35"): the renderer adds the sign-aware 0.5e-2 before
truncating, rounding half away from zero; the full engine agrees on "%.2f". -/
theorem fixed_rounding_half_away :
    zftoal (FVal.fin ⟨2345, 1000⟩) 0 2 flags0 = "2.35".toList ∧
    zftoal (FVal.fin ⟨-2345, 1000⟩) 0 2 flags0 = "-2.35".toList ∧
    zvsnprintfModel 32 ("%.2f".toList) [Arg.aFloat (FVal.fin ⟨2345, 1000⟩)] =
      some ("2.35\x00".toList, 4) := by decide

/-- Claim C10 (code bug): the scanner renders "%15.9e" of 1e100 through the 24-byte
tmp scratch buffer, but the token is 25 characters long (10-character padded whole
part, '.', 9 fraction digits, "e+100"), so the token plus its terminating NUL
overruns tmp by 2 bytes. -/
theorem scratch_overflow_e_token :
    (doDirective 'e' ("15.9".toList) [Arg.aFloat (FVal.fin ⟨(10:Int)^100, 1⟩)]).map
      (fun p => p.1.length) = some 25 := by decide

end Zfmt
